import Mathlib

/-!
Verification of the SFO Connectivity Helper networking substrate.

This file gives a shallow embedding, in Lean 4, of the parts of the Go
implementation that the specification's testable properties talk about:

* the session store (`server/internal/session/store.go`, `Store` and its
  operations), with the wall clock and the random draws passed in
  explicitly;
* the relay pairing logic (`Relay.HandleConnection` critical section);
* the HMAC-sealed capability token signer (`auth.Signer.Sign` / `Verify`),
  with the MAC primitive as an explicit function parameter and the
  standard-library encoders (`encoding/json` for the claims struct,
  `encoding/base64` RawURL, UTF-8) embedded as executable functions;
* the client bridge's forwarding loops (`bridge.Bridge.forwardToLocal` /
  `forwardToRelay`) over an explicit list of read events;
* the per-identity token-bucket rate limiter.

Go maps are embedded as association lists with overwrite-on-insert
semantics; Go `time.Time` instants are embedded as integers (unix
seconds); randomness (`crypto/rand` draws) is passed in as arguments.
-/

namespace SFO

/-! ## Association-list embedding of Go maps -/

/-- Lookup in a Go map embedded as an association list. -/
def mapGet {α : Type} : List (String × α) → String → Option α
  | [], _ => none
  | p :: m, k => if p.1 = k then some p.2 else mapGet m k

/-- Deletion, as Go `delete(m, k)`. -/
def mapDel {α : Type} : List (String × α) → String → List (String × α)
  | [], _ => []
  | p :: m, k => if p.1 = k then mapDel m k else p :: mapDel m k

/-- Insert (overwriting any previous binding), as Go `m[k] = v`. -/
def mapSet {α : Type} (m : List (String × α)) (k : String) (v : α) :
    List (String × α) :=
  (k, v) :: mapDel m k

/-! ## Session store (`session.Store`) -/

/-- Session record, from `session.Session` in `store.go`. -/
structure Session where
  ID : String
  Code : String
  HostToken : String
  JoinToken : String
  HostConnected : Bool
  JoinConnected : Bool
  CreatedAt : Int
  ExpiresAt : Int
  deriving Repr, DecidableEq

/-- In-memory session store, from `session.Store`: `sessions` keyed by
session ID, `byCodes` mapping code to session ID, TTL in seconds. -/
structure Store where
  sessions : List (String × Session)
  byCodes : List (String × String)
  ttl : Int
  deriving Repr, DecidableEq

/-- Expiry test used throughout `store.go`: `time.Now().After(ExpiresAt)`. -/
def Session.isExpired (sess : Session) (now : Int) : Bool :=
  now > sess.ExpiresAt

/-- Embedding of `Store.Create`. The random draws (session ID, join code,
host token) and the clock are passed in explicitly; the Go code installs
the record in both indices unconditionally. -/
def Store.create (s : Store) (now : Int) (id code hostToken : String) :
    Store × Session :=
  let session : Session :=
    { ID := id, Code := code, HostToken := hostToken, JoinToken := ""
      HostConnected := false, JoinConnected := false
      CreatedAt := now, ExpiresAt := now + s.ttl }
  ({ s with sessions := mapSet s.sessions id session
            byCodes := mapSet s.byCodes code id }, session)

/-- Embedding of `Store.GetByID`: lookup that treats expired sessions as
absent. -/
def Store.getByID (s : Store) (now : Int) (id : String) : Option Session :=
  match mapGet s.sessions id with
  | none => none
  | some sess => if sess.isExpired now then none else some sess

/-- Embedding of `Store.GetByCode`: code-index lookup, then expiry check. -/
def Store.getByCode (s : Store) (now : Int) (code : String) : Option Session :=
  match mapGet s.byCodes code with
  | none => none
  | some id =>
    match mapGet s.sessions id with
    | none => none
    | some sess => if sess.isExpired now then none else some sess

/-- Error taxonomy of `Store.Join`, mirroring its three `fmt.Errorf`
messages: "session not found", "session expired",
"session already has a joiner". -/
inductive JoinErr where
  | notFound
  | expired
  | alreadyJoined
  deriving Repr, DecidableEq

/-- Embedding of `Store.Join`: code lookup, expiry check, single-joiner
check, then the joiner-token install, all in one critical section. The
freshly drawn join token is the `joinToken` argument. -/
def Store.join (s : Store) (now : Int) (code joinToken : String) :
    Except JoinErr (Store × Session) :=
  match mapGet s.byCodes code with
  | none => .error .notFound
  | some id =>
    match mapGet s.sessions id with
    | none => .error .expired
    | some sess =>
      if sess.isExpired now then .error .expired
      else if sess.JoinToken != "" then .error .alreadyJoined
      else
        let sess' := { sess with JoinToken := joinToken }
        .ok ({ s with sessions := mapSet s.sessions id sess' }, sess')

/-- Embedding of `Store.SetHostConnected`. Note: the Go code looks the
session up by ID only and never consults the clock, so it has no `now`
parameter. -/
def Store.setHostConnected (s : Store) (id : String) (connected : Bool) :
    Except String Store :=
  match mapGet s.sessions id with
  | none => .error "session not found"
  | some sess =>
    .ok { s with sessions :=
            mapSet s.sessions id { sess with HostConnected := connected } }

/-- Embedding of `Store.SetJoinConnected`; like `SetHostConnected`, no
expiry check. -/
def Store.setJoinConnected (s : Store) (id : String) (connected : Bool) :
    Except String Store :=
  match mapGet s.sessions id with
  | none => .error "session not found"
  | some sess =>
    .ok { s with sessions :=
            mapSet s.sessions id { sess with JoinConnected := connected } }

/-- Embedding of `Store.Delete`. -/
def Store.delete (s : Store) (id : String) : Store :=
  match mapGet s.sessions id with
  | none => s
  | some sess =>
    { s with sessions := mapDel s.sessions id
             byCodes := mapDel s.byCodes sess.Code }

/-- Embedding of `Store.ValidateToken`: expiry check, then a comparison of
the stored bearer token for the asserted role. -/
def Store.validateToken (s : Store) (now : Int)
    (sessionID token role : String) : Bool :=
  match mapGet s.sessions sessionID with
  | none => false
  | some sess =>
    if sess.isExpired now then false
    else if role = "host" then sess.HostToken == token
    else if role = "joiner" then sess.JoinToken == token
    else false

/-- Embedding of `Store.cleanup` (one janitor tick): every expired record
is removed from the session index, and the code-index entry of every
expired record's code is removed. -/
def Store.cleanup (s : Store) (now : Int) : Store :=
  { s with
    sessions := s.sessions.filter (fun p => !(p.2.isExpired now))
    byCodes := s.byCodes.filter (fun p =>
      !(s.sessions.any (fun q => q.2.isExpired now && q.2.Code == p.1))) }

/-! ## Join-code generation (`generateCode`) and the HTTP join handler -/

/-- Standard base32 alphabet used by Go `encoding/base32.StdEncoding`. -/
def base32Alphabet : List Char := "ABCDEFGHIJKLMNOPQRSTUVWXYZ234567".data

/-- Character for one 5-bit base32 digit. -/
def base32Char (n : Nat) : Char := base32Alphabet.getD n 'A'

/-- Big-endian byte-string value, as used by base32 encoding. -/
def bytesToNat (bs : List Nat) : Nat := bs.foldl (fun acc b => acc * 256 + b) 0

/-- The 12 characters of a join code: `generateCode` draws 8 random bytes
(64 bits), base32-encodes them with `base32.StdEncoding` (no padding,
13 chars) and keeps the first 12 characters, i.e. the top 60 bits in
big-endian 5-bit groups. The Go code's `strings.ToUpper` is the identity
on this alphabet. -/
def generateCodeChars (draw : List Nat) : List Char :=
  let n := bytesToNat draw
  (List.range 12).map (fun i => base32Char (n / 2 ^ (64 - 5 * (i + 1)) % 32))

/-- Formatting `XXXX-XXXX-XXXX` from 12 characters, as in `generateCode`
and in `handleJoin`'s re-grouping. -/
def regroupCode (cs : List Char) : String :=
  String.mk (cs.take 4) ++ "-" ++ String.mk ((cs.drop 4).take 4) ++ "-" ++
    String.mk ((cs.drop 8).take 4)

/-- Embedding of `generateCode` applied to the 8 drawn random bytes. -/
def generateCode (draw : List Nat) : String :=
  regroupCode (generateCodeChars draw)

/-- Code normalization performed by `Server.handleJoin`: strip dashes,
uppercase, and re-group into the canonical three-quartet form when 12
characters remain. -/
def normalizeCode (req : String) : String :=
  let stripped := (req.data.filter (fun c => c ≠ '-')).map Char.toUpper
  if stripped.length = 12 then regroupCode stripped else String.mk stripped

/-- Embedding of the join-path of `Server.handleJoin` after the
rate-limit gate (which returns 429 before any store work) and before
token minting: every `Store.Join` failure is surfaced as HTTP 404
("Invalid or expired code"), success as 200. -/
def handleJoin (st : Store) (now : Int) (reqCode joinTokenDraw : String) :
    Nat × Store :=
  let code := normalizeCode reqCode
  match st.join now code joinTokenDraw with
  | .error _ => (404, st)
  | .ok (st', _) => (200, st')

/-! ## Concrete store fixtures for witnesses and counterexamples -/

/-- Live session with no joiner admitted yet. -/
def sessFresh : Session :=
  { ID := "i", Code := "AAAA-AAAA-AAAA", HostToken := "h", JoinToken := ""
    HostConnected := false, JoinConnected := false
    CreatedAt := 0, ExpiresAt := 100 }

/-- Store holding only `sessFresh`. -/
def storeFresh : Store :=
  { sessions := [("i", sessFresh)], byCodes := [("AAAA-AAAA-AAAA", "i")]
    ttl := 100 }

/-- Live session that already has a joiner token. -/
def sessJoined : Session := { sessFresh with JoinToken := "jt" }

/-- Store holding only `sessJoined`. -/
def storeJoined : Store :=
  { sessions := [("i", sessJoined)], byCodes := [("AAAA-AAAA-AAAA", "i")]
    ttl := 100 }

/-- Session whose expiry instant has passed at time 1. -/
def sessExpired : Session := { sessFresh with ExpiresAt := 0 }

/-- Store holding only `sessExpired`, observed at `now = 1`. -/
def storeExpired : Store :=
  { sessions := [("i", sessExpired)], byCodes := [("AAAA-AAAA-AAAA", "i")]
    ttl := 0 }

/-- Store obtained by two `Create` calls whose random code draws collide. -/
def storeTwoCreates : Store :=
  (((({ sessions := [], byCodes := [], ttl := 100 } : Store).create 0 "id1"
    "AAAA-AAAA-AAAA" "h1").1).create 0 "id2" "AAAA-AAAA-AAAA" "h2").1

/-! ## Relay pairing (`relay.Relay`) -/

/-- Pending connection record, from `relay.PendingConnection`; the open
socket is represented by an abstract connection identifier. -/
structure PendingConnection where
  Conn : Nat
  Role : String
  SessionID : String
  CreatedAt : Int
  deriving Repr, DecidableEq

/-- Relay shared state: the pending table guarded by `r.mu`, plus ghost
observables recording which connection pairs were spliced
(`pairConnections` calls, as (sessionID, hostConn, joinerConn)) and which
pending sockets the pairing logic closed. -/
structure RelayState where
  pending : List (String × PendingConnection)
  spliced : List (String × Nat × Nat)
  closed : List Nat
  deriving Repr, DecidableEq

/-- Client auth message, from `relay.AuthMessage`. -/
structure AuthMessage where
  SessionID : String
  RelayToken : String
  Role : String
  deriving Repr, DecidableEq

/-- Auth response envelope, from `relay.AuthResponse`. -/
structure AuthResponse where
  Success : Bool
  Error : String
  deriving Repr, DecidableEq

/-- The pairing critical section of `Relay.HandleConnection` (the code
under `r.mu.Lock()`): an authenticated connection for `sessionID` with
`role` either pairs with an opposite-role pending entry — removing it and
recording the host/joiner splice in the same step — or displaces and
closes a same-role pending entry, or parks as the new pending entry.
`now` is the creation instant recorded for a parked entry. -/
def pairStep (st : RelayState) (sessionID role : String) (conn : Nat)
    (now : Int) : RelayState :=
  match mapGet st.pending sessionID with
  | some p =>
    if p.Role ≠ role then
      { st with
        pending := mapDel st.pending sessionID
        spliced := (sessionID,
          if role = "host" then (conn, p.Conn) else (p.Conn, conn))
          :: st.spliced }
    else
      { st with
        pending := mapSet st.pending sessionID
          (PendingConnection.mk conn role sessionID now)
        closed := p.Conn :: st.closed }
  | none =>
    { st with
      pending := mapSet st.pending sessionID
        (PendingConnection.mk conn role sessionID now) }

/-- Authentication phase of `Relay.HandleConnection`, in source order:
decode of the auth message, token validation through the injected
`TokenValidator`, then the check that the token's claims match the
asserted `sessionId` and `role`. -/
def authPhase (msg : Option AuthMessage)
    (validate : String → Except String (String × String)) :
    Except String (String × String) :=
  match msg with
  | none => .error "Invalid auth message"
  | some m =>
    match validate m.RelayToken with
    | .error _ => .error "Invalid token"
    | .ok (sessionID, role) =>
      if sessionID ≠ m.SessionID ∨ role ≠ m.Role then .error "Token mismatch"
      else .ok (sessionID, role)

/-- Observable outcome of one `Relay.HandleConnection` call up to the end
of the pairing critical section: the relay state afterwards, the auth
response written to the socket, and whether the handler returned on a
failure path (closing the socket via the deferred `conn.Close()`). -/
structure HandleResult where
  state : RelayState
  response : AuthResponse
  failedClosed : Bool
  deriving Repr, DecidableEq

/-- Embedding of `Relay.HandleConnection` as a function of the decoded
auth message (`none` for a decode error) and the validator verdict. -/
def handleConnection (st : RelayState) (msg : Option AuthMessage)
    (validate : String → Except String (String × String)) (conn : Nat)
    (now : Int) : HandleResult :=
  match authPhase msg validate with
  | .error e => HandleResult.mk st (AuthResponse.mk false e) true
  | .ok (sessionID, role) =>
    HandleResult.mk (pairStep st sessionID role conn now)
      (AuthResponse.mk true "") false

/-- Fold of the pairing critical section over a sequence of authenticated
connections (role, connection id), all for one session id. -/
def runPairing (sid : String) : RelayState → List (String × Nat) → RelayState
  | st, [] => st
  | st, e :: es => runPairing sid (pairStep st sid e.1 e.2 0) es

/-- The relay's start state: empty pending table, nothing spliced. -/
def relayState0 : RelayState := RelayState.mk [] [] []

/-! ## Bridge forwarding loops (`bridge.Bridge`) -/

/-- One iteration's input to a bridge copy loop: either a successful read
of `n` bytes followed by a write attempt that succeeds or fails, or a
read error / EOF, which ends the loop. -/
inductive ReadEvent where
  | data (n : Nat) (writeOk : Bool)
  | readErr
  deriving Repr, DecidableEq

/-- Embedding of one bridge copy loop iteration sequence: `cnt` is the
current value of the direction's byte counter; the result is the final
counter value and the total number of bytes actually written on that
side. Mirroring `forwardToLocal` / `forwardToRelay`, after a read of
`n > 0` bytes the counter is incremented by `n` first
(`b.stats.BytesIn.Add(int64(n))`) and the write is attempted second; a
failed write or a read error returns from the loop. -/
def fwdLoop : Nat → List ReadEvent → Nat × Nat
  | cnt, [] => (cnt, 0)
  | cnt, .readErr :: _ => (cnt, 0)
  | cnt, .data n ok :: rest =>
    if n > 0 then
      if ok then
        let r := fwdLoop (cnt + n) rest
        (r.1, n + r.2)
      else (cnt + n, 0)
    else fwdLoop cnt rest

/-- The `forwardToLocal` loop, which maintains the BytesIn counter
(relay to local direction). -/
def forwardToLocal : Nat → List ReadEvent → Nat × Nat := fwdLoop

/-- The `forwardToRelay` loop, which maintains the BytesOut counter
(local to relay direction). -/
def forwardToRelay : Nat → List ReadEvent → Nat × Nat := fwdLoop

/-- Bytes added to the counter but never written: the size of the final
chunk when the loop ended on a failed write, 0 otherwise. -/
def lostBytes : List ReadEvent → Nat
  | [] => 0
  | .readErr :: _ => 0
  | .data n ok :: rest =>
    if n > 0 then (if ok then lostBytes rest else n) else lostBytes rest

/-! ## Rate limiter (`ratelimit.Limiter` over `x/time/rate`) -/

/-- Modelled from the spec: the per-identity refilling token bucket
behind `Limiter.Allow`, which delegates to
`golang.org/x/time/rate.Limiter` — a dependency whose source is not part
of this repository. Spec §3 "Rate bucket" / §4.2: rate in tokens/sec,
burst = bucket capacity; tokens refill continuously at `rate`, capped at
`burst`; `allow` returns true iff at least one token is available,
consuming it. Time is in rational seconds; a clock that appears to run
backwards refills nothing (as in the library). -/
structure BucketState where
  tokens : ℚ
  last : ℚ

/-- Token count after advancing the bucket clock from `s.last` to `t`. -/
def bucketAdvance (rate burst : ℚ) (s : BucketState) (t : ℚ) : ℚ :=
  min burst (s.tokens + rate * (t - (if t < s.last then t else s.last)))

/-- One `allow` call at time `t`: refill, then consume one token if at
least one is available. -/
def allowStep (rate burst : ℚ) (s : BucketState) (t : ℚ) :
    Bool × BucketState :=
  let tok := bucketAdvance rate burst s t
  if 1 ≤ tok then (true, BucketState.mk (tok - 1) t)
  else (false, BucketState.mk tok t)

/-- Fold of `allow` calls at the given (chronological) times: the number
of calls that returned true, and the final bucket state. -/
def runAllow (rate burst : ℚ) : BucketState → List ℚ → Nat × BucketState
  | s, [] => (0, s)
  | s, t :: ts =>
    let r := allowStep rate burst s t
    let rest := runAllow rate burst r.2 ts
    ((if r.1 then 1 else 0) + rest.1, rest.2)

/-- Session-create limiter rate from `NewMultiLimiter`: 10 per minute. -/
def createRate : ℚ := 10 / 60

/-- Session-create limiter burst from `NewMultiLimiter`. -/
def createBurst : ℚ := 3

/-- Session-join limiter rate from `NewMultiLimiter`: 30 per minute. -/
def joinRate : ℚ := 30 / 60

/-- Session-join limiter burst from `NewMultiLimiter`. -/
def joinBurst : ℚ := 10

/-! ## Capability token signer (`auth.Signer`)

The Go `Sign`/`Verify` pair composes standard-library primitives:
`encoding/json` marshalling of the `TokenClaims` struct, UTF-8 text,
unpadded `base64.RawURLEncoding`, and HMAC-SHA256. The MAC primitive is
kept as an explicit function parameter `mac` (the pure function
`payload ↦ hmac.New(sha256.New, secret).Sum(payload)` for a fixed
secret); the encoders are embedded below as executable functions.
Strings are embedded at rune granularity (`List Char`), which corresponds
to the valid-UTF-8 Go strings the server produces. -/

/-- Claims carried by a capability token, from `auth.TokenClaims`:
session id (JSON field `sid`), role (`role`), unix expiry (`exp`). -/
structure TokenClaims where
  SessionID : List Char
  Role : List Char
  ExpiresAt : Int
  deriving Repr, DecidableEq

/-- Decimal digit character. -/
def digitChar (d : Nat) : Char := "0123456789".data.getD d '0'

/-- Little-endian decimal digits of a positive number by repeated
division, with fuel making the recursion structural (`natToChars` passes
`n` itself, which always suffices). -/
def natDigitsRev : Nat → Nat → List Char
  | 0, _ => []
  | fuel + 1, n =>
    if n = 0 then [] else digitChar (n % 10) :: natDigitsRev fuel (n / 10)

/-- Decimal rendering of a natural number, as Go `strconv`/`json` render
integers (most significant digit first, `0` for zero). -/
def natToChars (n : Nat) : List Char :=
  if n = 0 then ['0'] else (natDigitsRev n n).reverse

/-- Decimal rendering of an int64, with a leading minus sign when
negative. -/
def intToChars (n : Int) : List Char :=
  if n < 0 then '-' :: natToChars n.natAbs else natToChars n.toNat

/-- Test for an ASCII decimal digit. -/
def isDigitChar (c : Char) : Bool := 48 ≤ c.toNat && c.toNat ≤ 57

/-- Parse a run of decimal digits (most significant first) with
accumulator, returning the value and the unconsumed remainder. -/
def parseDigits : List Char → Nat → Nat × List Char
  | c :: rest, acc =>
    if isDigitChar c then parseDigits rest (acc * 10 + (c.toNat - 48))
    else (acc, c :: rest)
  | [], acc => (acc, [])

/-- Parse a JSON integer (optional minus sign, then at least one
digit). -/
def parseInt : List Char → Option (Int × List Char)
  | [] => none
  | c :: rest =>
    if c = '-' then
      match rest with
      | [] => none
      | d :: _ =>
        if isDigitChar d then
          let r := parseDigits rest 0
          some (-(r.1 : Int), r.2)
        else none
    else if isDigitChar c then
      let r := parseDigits (c :: rest) 0
      some ((r.1 : Int), r.2)
    else none

/-- Lowercase hexadecimal digit character, as Go's JSON encoder emits in
`\u00xx` escapes. -/
def hexDigitChar (d : Nat) : Char := "0123456789abcdef".data.getD d '0'

/-- Four-digit lowercase hex rendering of a code point below 0x10000. -/
def hex4 (n : Nat) : List Char :=
  [hexDigitChar (n / 4096 % 16), hexDigitChar (n / 256 % 16),
    hexDigitChar (n / 16 % 16), hexDigitChar (n % 16)]

/-- Hex digit value accepted by the JSON decoder (0-9, a-f, A-F). -/
def hexVal (c : Char) : Option Nat :=
  if 48 ≤ c.toNat ∧ c.toNat ≤ 57 then some (c.toNat - 48)
  else if 97 ≤ c.toNat ∧ c.toNat ≤ 102 then some (c.toNat - 87)
  else if 65 ≤ c.toNat ∧ c.toNat ≤ 70 then some (c.toNat - 55)
  else none

/-- Per-rune JSON string escaping of Go `encoding/json` with its default
HTML escaping: backslash escapes for quote, backslash, newline, carriage
return and tab; `\u00xx` for other control characters and for the
HTML-sensitive `<`, `>`, `&`; ` `/` ` for the line/paragraph
separators; everything else verbatim. -/
def escapeChar (c : Char) : List Char :=
  if c = '"' then ['\\', '"']
  else if c = '\\' then ['\\', '\\']
  else if c = '\n' then ['\\', 'n']
  else if c = '\r' then ['\\', 'r']
  else if c = '\t' then ['\\', 't']
  else if c.toNat < 32 ∨ c = '<' ∨ c = '>' ∨ c = '&' then
    '\\' :: 'u' :: hex4 c.toNat
  else if c.toNat = 8232 ∨ c.toNat = 8233 then
    '\\' :: 'u' :: hex4 c.toNat
  else [c]

/-- JSON string-body escaping, rune by rune. -/
def escapeString : List Char → List Char
  | [] => []
  | c :: s => escapeChar c ++ escapeString s

/-- One JSON string-body parsing step on a character `c` with remaining
input `rest`: a quote ends the string, a backslash undoes one escape of
`escapeChar` (plus the other single-character escapes the decoder
accepts), anything else is literal; `rec` parses the remainder. -/
def parseJsonStep (c : Char) (rest : List Char)
    (rec : List Char → Option (List Char × List Char)) :
    Option (List Char × List Char) :=
  if c = '"' then some ([], rest)
  else if c = '\\' then
    match rest with
    | [] => none
    | e :: rest2 =>
      if e = '"' then (rec rest2).map (fun p => ('"' :: p.1, p.2))
      else if e = '\\' then (rec rest2).map (fun p => ('\\' :: p.1, p.2))
      else if e = '/' then (rec rest2).map (fun p => ('/' :: p.1, p.2))
      else if e = 'n' then (rec rest2).map (fun p => ('\n' :: p.1, p.2))
      else if e = 'r' then (rec rest2).map (fun p => ('\r' :: p.1, p.2))
      else if e = 't' then (rec rest2).map (fun p => ('\t' :: p.1, p.2))
      else if e = 'b' then (rec rest2).map (fun p => ('\x08' :: p.1, p.2))
      else if e = 'f' then (rec rest2).map (fun p => ('\x0c' :: p.1, p.2))
      else if e = 'u' then
        match rest2 with
        | h1 :: h2 :: h3 :: h4 :: rest3 =>
          match hexVal h1, hexVal h2, hexVal h3, hexVal h4 with
          | some a, some b, some c2, some d =>
            (rec rest3).map
              (fun p => (Char.ofNat (((a * 16 + b) * 16 + c2) * 16 + d)
                :: p.1, p.2))
          | _, _, _, _ => none
        | _ => none
      else none
  else (rec rest).map (fun p => (c :: p.1, p.2))

/-- JSON string-body parser with fuel (one unit per decoded character),
making the recursion structural; `parseJsonString` passes the input
length, which always suffices. -/
def parseJsonStringAux : Nat → List Char → Option (List Char × List Char)
  | _, [] => none
  | 0, _ :: _ => none
  | fuel + 1, c :: rest => parseJsonStep c rest (parseJsonStringAux fuel)

/-- JSON string-body parser entry point. -/
def parseJsonString (l : List Char) : Option (List Char × List Char) :=
  parseJsonStringAux l.length l

/-- Canonical `encoding/json` marshalling of `TokenClaims` (struct fields
in declaration order, no whitespace): the JSON text as runes. -/
def jsonMarshalClaims (c : TokenClaims) : List Char :=
  "\x7b\"sid\":\"".data ++ escapeString c.SessionID ++
    "\",\"role\":\"".data ++ escapeString c.Role ++
    "\",\"exp\":".data ++ intToChars c.ExpiresAt ++ "\x7d".data

/-- Literal-prefix matcher used by the canonical claims parser. -/
def expectPrefix : List Char → List Char → Option (List Char)
  | [], l => some l
  | _ :: _, [] => none
  | p :: ps, c :: cs => if c = p then expectPrefix ps cs else none

/-- Parser for the canonical claims serialization produced by
`jsonMarshalClaims` — the behavior of `json.Unmarshal` into
`auth.TokenClaims` restricted to `json.Marshal` outputs. -/
def jsonUnmarshalClaims (l : List Char) : Option TokenClaims := do
  let l1 ← expectPrefix "\x7b\"sid\":\"".data l
  let p1 ← parseJsonString l1
  let l2 ← expectPrefix ",\"role\":\"".data p1.2
  let p2 ← parseJsonString l2
  let l3 ← expectPrefix ",\"exp\":".data p2.2
  let p3 ← parseInt l3
  let l4 ← expectPrefix "\x7d".data p3.2
  if l4 = [] then some (TokenClaims.mk p1.1 p2.1 p3.1) else none

/-- UTF-8 encoding of one unicode scalar value. -/
def utf8EncodeChar (c : Char) : List Nat :=
  let n := c.toNat
  if n < 128 then [n]
  else if n < 2048 then [192 + n / 64, 128 + n % 64]
  else if n < 65536 then [224 + n / 4096, 128 + n / 64 % 64, 128 + n % 64]
  else [240 + n / 262144, 128 + n / 4096 % 64, 128 + n / 64 % 64,
    128 + n % 64]

/-- UTF-8 encoding of a rune string to bytes, as Go strings store text. -/
def utf8Encode : List Char → List Nat
  | [] => []
  | c :: s => utf8EncodeChar c ++ utf8Encode s

/-- One UTF-8 character decoding step on a leading byte `b` with
following bytes `bs`: malformed, overlong, surrogate and out-of-range
sequences fail; `rec` continues decoding after the consumed bytes. -/
def utf8Step (b : Nat) (bs : List Nat)
    (rec : List Nat → Option (List Char)) : Option (List Char) :=
  if b < 128 then (rec bs).map (fun s => Char.ofNat b :: s)
  else if b < 192 then none
  else if b < 224 then
    (bs[0]?).bind (fun b2 =>
      if 128 ≤ b2 ∧ b2 < 192 then
        if 128 ≤ (b - 192) * 64 + (b2 - 128) then
          (rec (bs.drop 1)).map
            (fun s => Char.ofNat ((b - 192) * 64 + (b2 - 128)) :: s)
        else none
      else none)
  else if b < 240 then
    (bs[0]?).bind (fun b2 => (bs[1]?).bind (fun b3 =>
      if (128 ≤ b2 ∧ b2 < 192) ∧ (128 ≤ b3 ∧ b3 < 192) then
        if 2048 ≤ (b - 224) * 4096 + (b2 - 128) * 64 + (b3 - 128) ∧
            ¬ (55296 ≤ (b - 224) * 4096 + (b2 - 128) * 64 + (b3 - 128) ∧
              (b - 224) * 4096 + (b2 - 128) * 64 + (b3 - 128) < 57344) then
          (rec (bs.drop 2)).map (fun s =>
            Char.ofNat ((b - 224) * 4096 + (b2 - 128) * 64 + (b3 - 128))
              :: s)
        else none
      else none))
  else if b < 248 then
    (bs[0]?).bind (fun b2 => (bs[1]?).bind (fun b3 => (bs[2]?).bind
      (fun b4 =>
      if (128 ≤ b2 ∧ b2 < 192) ∧ (128 ≤ b3 ∧ b3 < 192) ∧
          (128 ≤ b4 ∧ b4 < 192) then
        if 65536 ≤ (b - 240) * 262144 + (b2 - 128) * 4096 +
              (b3 - 128) * 64 + (b4 - 128) ∧
            (b - 240) * 262144 + (b2 - 128) * 4096 +
              (b3 - 128) * 64 + (b4 - 128) < 1114112 then
          (rec (bs.drop 3)).map (fun s =>
            Char.ofNat ((b - 240) * 262144 + (b2 - 128) * 4096 +
              (b3 - 128) * 64 + (b4 - 128)) :: s)
        else none
      else none)))
  else none

/-- UTF-8 decoding with fuel (one unit per decoded character), making
the recursion structural; `utf8Decode` supplies the list length, which
always suffices since every character consumes at least one byte. -/
def utf8DecodeAux : Nat → List Nat → Option (List Char)
  | _, [] => some []
  | 0, _ :: _ => none
  | fuel + 1, b :: bs => utf8Step b bs (utf8DecodeAux fuel)

/-- UTF-8 decoding of a byte list back to runes. -/
def utf8Decode (l : List Nat) : Option (List Char) :=
  utf8DecodeAux l.length l

/-- Unpadded base64url alphabet of `base64.RawURLEncoding`. -/
def b64Char (n : Nat) : Char :=
  "ABCDEFGHIJKLMNOPQRSTUVWXYZabcdefghijklmnopqrstuvwxyz0123456789-_".data.getD
    n 'A'

/-- Reverse lookup in the base64url alphabet. -/
def b64Val (c : Char) : Option Nat :=
  (List.range 64).find? (fun i => b64Char i == c)

/-- Unpadded base64url encoding of a byte list
(`base64.RawURLEncoding.EncodeToString`). -/
def b64Encode : List Nat → List Char
  | [] => []
  | [b1] => [b64Char (b1 / 4), b64Char (b1 % 4 * 16)]
  | [b1, b2] => [b64Char (b1 / 4), b64Char (b1 % 4 * 16 + b2 / 16),
      b64Char (b2 % 16 * 4)]
  | b1 :: b2 :: b3 :: rest =>
    b64Char (b1 / 4) :: b64Char (b1 % 4 * 16 + b2 / 16) ::
      b64Char (b2 % 16 * 4 + b3 / 64) :: b64Char (b3 % 64) :: b64Encode rest

/-- Decoding of a trailing 2-character base64url group into one byte. -/
def b64DecTwo (c1 c2 : Char) : Option (List Nat) :=
  (b64Val c1).bind (fun v1 => (b64Val c2).map (fun v2 => [v1 * 4 + v2 / 16]))

/-- Decoding of a trailing 3-character base64url group into two bytes. -/
def b64DecThree (c1 c2 c3 : Char) : Option (List Nat) :=
  (b64Val c1).bind (fun v1 => (b64Val c2).bind (fun v2 =>
    (b64Val c3).map (fun v3 =>
      [v1 * 4 + v2 / 16, v2 % 16 * 16 + v3 / 4])))

/-- Decoding of a full 4-character base64url quantum into three bytes. -/
def b64DecFour (c1 c2 c3 c4 : Char) : Option (List Nat) :=
  (b64Val c1).bind (fun v1 => (b64Val c2).bind (fun v2 =>
    (b64Val c3).bind (fun v3 => (b64Val c4).map (fun v4 =>
      [v1 * 4 + v2 / 16, v2 % 16 * 16 + v3 / 4, v3 % 4 * 64 + v4]))))

/-- Unpadded base64url decoding
(`base64.RawURLEncoding.DecodeString`): full 4-character quanta, then a
2- or 3-character remainder; a lone trailing character is invalid. -/
def b64Decode : List Char → Option (List Nat)
  | [] => some []
  | [_] => none
  | [c1, c2] => b64DecTwo c1 c2
  | [c1, c2, c3] => b64DecThree c1 c2 c3
  | c1 :: c2 :: c3 :: c4 :: rest =>
    (b64DecFour c1 c2 c3 c4).bind (fun h3 =>
      (b64Decode rest).map (fun t => h3 ++ t))

/-- Split on the dot character, as `strings.Split(token, ".")`. -/
def splitOnDot : List Char → List (List Char)
  | [] => [[]]
  | c :: rest =>
    if c = '.' then [] :: splitOnDot rest
    else
      match splitOnDot rest with
      | [] => [[c]]
      | g :: gs => (c :: g) :: gs

/-- Error taxonomy of `Signer.Verify`, mirroring its `fmt.Errorf`
messages in order: "invalid token format", "invalid token payload",
"invalid token signature", "invalid signature" (MAC mismatch),
"invalid claims", "token expired". -/
inductive VerifyErr where
  | invalidFormat
  | invalidPayload
  | invalidSignature
  | badMac
  | invalidClaims
  | expired
  deriving Repr, DecidableEq

/-- Embedding of `Signer.Sign`: serialize the claims, MAC the payload
bytes, and join the two unpadded base64url halves with a single dot. -/
def sign (mac : List Nat → List Nat) (claims : TokenClaims) : List Char :=
  let payload := utf8Encode (jsonMarshalClaims claims)
  b64Encode payload ++ '.' :: b64Encode (mac payload)

/-- Embedding of `Signer.Verify`: split on the dot, decode both halves,
recompute and compare the MAC, unmarshal the claims, and check expiry
(`time.Now().Unix() > claims.ExpiresAt` fails). `now` is the current unix
time. -/
def verify (mac : List Nat → List Nat) (now : Int) (token : List Char) :
    Except VerifyErr TokenClaims :=
  match splitOnDot token with
  | [p, s] =>
    match b64Decode p with
    | none => .error .invalidPayload
    | some payload =>
      match b64Decode s with
      | none => .error .invalidSignature
      | some signature =>
        if signature = mac payload then
          match utf8Decode payload with
          | none => .error .invalidClaims
          | some text =>
            match jsonUnmarshalClaims text with
            | none => .error .invalidClaims
            | some claims =>
              if now > claims.ExpiresAt then .error .expired
              else .ok claims
        else .error .badMac
  | _ => .error .invalidFormat

/-! ## Theorems: association-list map laws -/

theorem mapGet_mapDel_ne {α : Type} (m : List (String × α)) (k k' : String)
    (h : k' ≠ k) : mapGet (mapDel m k) k' = mapGet m k' := by
  induction m with
  | nil => rfl
  | cons p m ih =>
    by_cases hpk : p.1 = k
    · have hpk' : ¬ p.1 = k' := fun hc => h (hc.symm.trans hpk)
      have hkk' : ¬ k = k' := fun hc => h hc.symm
      simp [mapDel, mapGet, hpk, hpk', hkk', ih]
    · by_cases hpk' : p.1 = k'
      · simp [mapDel, mapGet, hpk, hpk', h]
      · simp [mapDel, mapGet, hpk, hpk', ih]

theorem mapGet_mapDel_self {α : Type} (m : List (String × α)) (k : String) :
    mapGet (mapDel m k) k = none := by
  induction m with
  | nil => rfl
  | cons p m ih =>
    by_cases hpk : p.1 = k
    · simp [mapDel, hpk, ih]
    · simp [mapDel, mapGet, hpk, ih]

theorem mapGet_mapSet_self {α : Type} (m : List (String × α)) (k : String)
    (v : α) : mapGet (mapSet m k v) k = some v := by
  simp [mapGet, mapSet]

theorem mapGet_mapSet_ne {α : Type} (m : List (String × α)) (k k' : String)
    (v : α) (h : k' ≠ k) : mapGet (mapSet m k v) k' = mapGet m k' := by
  have hkk : ¬ (k = k') := fun hc => h hc.symm
  simp [mapSet, mapGet, hkk]
  exact mapGet_mapDel_ne m k k' h

theorem mapGet_none_filter {α : Type} (f : String × α → Bool)
    (m : List (String × α)) (k : String) (h : mapGet m k = none) :
    mapGet (m.filter f) k = none := by
  induction m with
  | nil => rfl
  | cons p m ih =>
    by_cases hpk : p.1 = k
    · simp [mapGet, hpk] at h
    · simp [mapGet, hpk] at h
      by_cases hf : f p = true
      · simp [List.filter_cons, hf, mapGet, hpk, ih h]
      · simp only [Bool.not_eq_true] at hf
        simp [List.filter_cons, hf, ih h]

theorem key_mem_of_mapGet_some {α : Type} (m : List (String × α))
    (k : String) (v : α) (h : mapGet m k = some v) :
    k ∈ m.map Prod.fst := by
  induction m with
  | nil => simp [mapGet] at h
  | cons p m ih =>
    by_cases hpk : p.1 = k
    · simp [hpk]
    · simp [mapGet, hpk] at h
      simp [ih h]

theorem mapGet_filter_none_of_fst {α : Type} (g : α → Bool)
    (m : List (String × α)) (k : String) (v : α)
    (hnd : (m.map Prod.fst).Nodup) (hget : mapGet m k = some v)
    (hgv : g v = false) :
    mapGet (m.filter (fun p => g p.2)) k = none := by
  induction m with
  | nil => simp [mapGet] at hget
  | cons p m ih =>
    simp only [List.map_cons, List.nodup_cons] at hnd
    by_cases hpk : p.1 = k
    · simp [mapGet, hpk] at hget
      have hknotin : mapGet m k = none := by
        cases hmk : mapGet m k with
        | none => rfl
        | some w =>
          exact absurd (hpk ▸ key_mem_of_mapGet_some m k w hmk) hnd.1
      have hgp : g p.2 = false := by rw [hget]; exact hgv
      simp [List.filter_cons, hgp]
      exact mapGet_none_filter _ m k hknotin
    · simp [mapGet, hpk] at hget
      by_cases hf : g p.2 = true
      · simp [List.filter_cons, hf, mapGet, hpk]
        exact ih hnd.2 hget
      · simp only [Bool.not_eq_true] at hf
        simp [List.filter_cons, hf]
        exact ih hnd.2 hget

/-! ## Theorems: decimal rendering parses back -/

theorem digitChar_props (d : Nat) (h : d < 10) :
    (digitChar d).toNat = 48 + d ∧ isDigitChar (digitChar d) = true ∧
    digitChar d ≠ '-' := by
  interval_cases d <;> exact ⟨rfl, rfl, by decide⟩

theorem parseDigits_render : ∀ (vs : List Nat) (acc : Nat) (rest : List Char),
    (∀ v ∈ vs, v < 10) →
    (∀ c, rest.head? = some c → isDigitChar c = false) →
    parseDigits (vs.map digitChar ++ rest) acc =
      (vs.foldl (fun a v => a * 10 + v) acc, rest) := by
  intro vs
  induction vs with
  | nil =>
    intro acc rest _ hrest
    cases rest with
    | nil => simp [parseDigits]
    | cons c cs =>
      simp only [List.map_nil, List.nil_append, parseDigits]
      rw [hrest c rfl]
      simp
  | cons v vs ih =>
    intro acc rest hvs hrest
    have hv : v < 10 := hvs v (by simp)
    obtain ⟨ht, hd, _⟩ := digitChar_props v hv
    simp only [List.map_cons, List.cons_append, parseDigits, hd, if_true, ht,
      List.foldl_cons]
    have hsub : 48 + v - 48 = v := by omega
    rw [hsub]
    exact ih (acc * 10 + v) rest (fun u hu => hvs u (by simp [hu])) hrest

theorem foldr_eq_ofDigits : ∀ L : List Nat,
    L.foldr (fun v a => a * 10 + v) 0 = Nat.ofDigits 10 L := by
  intro L
  induction L with
  | nil => simp [Nat.ofDigits]
  | cons d L ih =>
    simp only [List.foldr_cons, Nat.ofDigits_cons, ih]
    ring

theorem natDigitsRev_eq : ∀ (fuel n : Nat), n ≤ fuel →
    natDigitsRev fuel n = (Nat.digits 10 n).map digitChar := by
  intro fuel
  induction fuel with
  | zero =>
    intro n hn
    interval_cases n
    simp [natDigitsRev]
  | succ f ih =>
    intro n hn
    by_cases h0 : n = 0
    · subst h0
      simp [natDigitsRev]
    · simp only [natDigitsRev, h0, if_false]
      rw [Nat.digits_def' (by norm_num : (1 : ℕ) < 10)
        (Nat.pos_of_ne_zero h0)]
      simp only [List.map_cons]
      have hdiv : n / 10 < n := Nat.div_lt_self (Nat.pos_of_ne_zero h0)
        (by norm_num)
      exact List.cons_eq_cons.mpr ⟨rfl, ih (n / 10) (by omega)⟩

theorem natToChars_eq_digits (n : Nat) : natToChars n =
    if n = 0 then ['0'] else (Nat.digits 10 n).reverse.map digitChar := by
  unfold natToChars
  by_cases h0 : n = 0
  · simp [h0]
  · rw [if_neg h0, if_neg h0, natDigitsRev_eq n n le_rfl, List.map_reverse]

theorem natToChars_parse (n : Nat) (rest : List Char)
    (hrest : ∀ c, rest.head? = some c → isDigitChar c = false) :
    parseDigits (natToChars n ++ rest) 0 = (n, rest) := by
  by_cases h0 : n = 0
  · subst h0
    have h := parseDigits_render [0] 0 rest (by simp) hrest
    simpa [natToChars, natDigitsRev] using h
  · rw [natToChars_eq_digits]
    rw [if_neg h0]
    have hlt : ∀ v ∈ (Nat.digits 10 n).reverse, v < 10 := by
      intro v hv
      exact Nat.digits_lt_base (by norm_num) (List.mem_reverse.mp hv)
    rw [parseDigits_render _ 0 rest hlt hrest]
    rw [List.foldl_reverse]
    rw [foldr_eq_ofDigits, Nat.ofDigits_digits]

theorem natToChars_head (n : Nat) :
    ∃ c cs, natToChars n = c :: cs ∧ isDigitChar c = true ∧ c ≠ '-' := by
  by_cases h0 : n = 0
  · subst h0
    exact ⟨'0', [], rfl, rfl, by decide⟩
  · rw [natToChars_eq_digits]
    rw [if_neg h0]
    cases hds : (Nat.digits 10 n).reverse with
    | nil =>
      exfalso
      have hne : Nat.digits 10 n ≠ [] := Nat.digits_ne_nil_iff_ne_zero.mpr h0
      simp only [List.reverse_eq_nil_iff] at hds
      exact hne hds
    | cons d ds =>
      have hd : d < 10 := by
        apply Nat.digits_lt_base (by norm_num)
        have : d ∈ (Nat.digits 10 n).reverse := by simp [hds]
        exact List.mem_reverse.mp this
      obtain ⟨_, hdig, hdash⟩ := digitChar_props d hd
      exact ⟨digitChar d, ds.map digitChar, by simp [hds], hdig, hdash⟩

theorem parseInt_render (n : Int) (rest : List Char)
    (hrest : ∀ c, rest.head? = some c → isDigitChar c = false) :
    parseInt (intToChars n ++ rest) = some (n, rest) := by
  by_cases hneg : n < 0
  · obtain ⟨c, cs, hc, hcd, _⟩ := natToChars_head n.natAbs
    have hparse := natToChars_parse n.natAbs rest hrest
    rw [hc] at hparse
    simp only [List.cons_append] at hparse
    unfold intToChars
    rw [if_pos hneg, hc]
    simp only [List.cons_append, parseInt, hcd, if_true, hparse]
    simp only [Option.some.injEq, Prod.mk.injEq]
    exact ⟨by omega, trivial⟩
  · obtain ⟨c, cs, hc, hcd, hdash⟩ := natToChars_head n.toNat
    have hparse := natToChars_parse n.toNat rest hrest
    rw [hc] at hparse
    simp only [List.cons_append] at hparse
    unfold intToChars
    rw [if_neg hneg, hc]
    simp only [List.cons_append, parseInt, hdash, hcd, if_true, if_false,
      hparse]
    simp only [Option.some.injEq, Prod.mk.injEq]
    exact ⟨by omega, trivial⟩

theorem hexVal_hexDigitChar : ∀ d, d < 16 →
    hexVal (hexDigitChar d) = some d := by
  decide

/-! ## Theorems: JSON string escaping parses back -/

theorem escapeChar_length_pos (c : Char) : 1 ≤ (escapeChar c).length := by
  unfold escapeChar
  repeat' split
  all_goals simp [hex4]

theorem parse_u_escape (c : Char) (tail : List Char) (fuel : Nat)
    (h : c.toNat < 65536) :
    parseJsonStringAux (fuel + 1) ('\\' :: 'u' :: (hex4 c.toNat ++ tail)) =
      (parseJsonStringAux fuel tail).map (fun p => (c :: p.1, p.2)) := by
  simp only [hex4, List.cons_append, List.nil_append]
  rw [parseJsonStringAux]
  simp only [parseJsonStep, reduceIte, Char.reduceEq]
  rw [hexVal_hexDigitChar _ (Nat.mod_lt _ (by norm_num)),
    hexVal_hexDigitChar _ (Nat.mod_lt _ (by norm_num)),
    hexVal_hexDigitChar _ (Nat.mod_lt _ (by norm_num)),
    hexVal_hexDigitChar _ (Nat.mod_lt _ (by norm_num))]
  simp only []
  have hn : ((c.toNat / 4096 % 16 * 16 + c.toNat / 256 % 16) * 16 +
      c.toNat / 16 % 16) * 16 + c.toNat % 16 = c.toNat := by omega
  rw [hn, Char.ofNat_toNat]

theorem parse_escape_aux : ∀ (s rest : List Char) (fuel : Nat),
    (escapeString s ++ '"' :: rest).length ≤ fuel →
    parseJsonStringAux fuel (escapeString s ++ '"' :: rest) =
      some (s, rest) := by
  intro s
  induction s with
  | nil =>
    intro rest fuel hfuel
    simp only [escapeString, List.nil_append, List.length_cons] at hfuel
    cases fuel with
    | zero => omega
    | succ f =>
      rw [show escapeString [] ++ '"' :: rest = '"' :: rest from rfl]
      rw [parseJsonStringAux]
      simp only [parseJsonStep, reduceIte, Char.reduceEq]
  | cons c s ih =>
    intro rest fuel hfuel
    rw [show escapeString (c :: s) = escapeChar c ++ escapeString s
      from rfl] at hfuel ⊢
    rw [List.append_assoc] at hfuel ⊢
    have hlenc := escapeChar_length_pos c
    rw [List.length_append] at hfuel
    cases fuel with
    | zero => omega
    | succ f =>
      have hf : (escapeString s ++ '"' :: rest).length ≤ f := by omega
      have ihs := ih rest f hf
      by_cases h1 : c = '"'
      · subst h1
        rw [show escapeChar '"' = ['\\', '"'] from rfl]
        simp only [List.cons_append, List.nil_append]
        rw [parseJsonStringAux]
        simp only [parseJsonStep, reduceIte, Char.reduceEq, ihs,
          Option.map_some']
      · by_cases h2 : c = '\\'
        · subst h2
          rw [show escapeChar '\\' = ['\\', '\\'] from rfl]
          simp only [List.cons_append, List.nil_append]
          rw [parseJsonStringAux]
          simp only [parseJsonStep, reduceIte, Char.reduceEq, ihs,
            Option.map_some']
        · by_cases h3 : c = '\n'
          · subst h3
            rw [show escapeChar '\n' = ['\\', 'n'] from rfl]
            simp only [List.cons_append, List.nil_append]
            rw [parseJsonStringAux]
            simp only [parseJsonStep, reduceIte, Char.reduceEq, ihs,
              Option.map_some']
          · by_cases h4 : c = '\r'
            · subst h4
              rw [show escapeChar '\r' = ['\\', 'r'] from rfl]
              simp only [List.cons_append, List.nil_append]
              rw [parseJsonStringAux]
              simp only [parseJsonStep, reduceIte, Char.reduceEq, ihs,
                Option.map_some']
            · by_cases h5 : c = '\t'
              · subst h5
                rw [show escapeChar '\t' = ['\\', 't'] from rfl]
                simp only [List.cons_append, List.nil_append]
                rw [parseJsonStringAux]
                simp only [parseJsonStep, reduceIte, Char.reduceEq, ihs,
                  Option.map_some']
              · by_cases h6 : c.toNat < 32 ∨ c = '<' ∨ c = '>' ∨ c = '&'
                · have hesc : escapeChar c = '\\' :: 'u' :: hex4 c.toNat :=
                    by
                    simp only [escapeChar, h1, h2, h3, h4, h5, if_false, h6,
                      if_true]
                  have hlt : c.toNat < 65536 := by
                    rcases h6 with h | h | h | h
                    · omega
                    · subst h; decide
                    · subst h; decide
                    · subst h; decide
                  rw [hesc]
                  simp only [List.cons_append, List.append_assoc]
                  rw [parse_u_escape c _ f hlt, ihs]
                  rfl
                · by_cases h7 : c.toNat = 8232 ∨ c.toNat = 8233
                  · have hesc : escapeChar c =
                        '\\' :: 'u' :: hex4 c.toNat := by
                      simp only [escapeChar, h1, h2, h3, h4, h5, if_false,
                        h6, h7, if_true]
                    have hlt : c.toNat < 65536 := by omega
                    rw [hesc]
                    simp only [List.cons_append, List.append_assoc]
                    rw [parse_u_escape c _ f hlt, ihs]
                    rfl
                  · have hesc : escapeChar c = [c] := by
                      simp only [escapeChar, h1, h2, h3, h4, h5, h6, h7,
                        if_false]
                    rw [hesc]
                    simp only [List.cons_append, List.nil_append]
                    rw [parseJsonStringAux]
                    simp only [parseJsonStep, h1, h2, if_false]
                    rw [ihs]
                    rfl

theorem parse_escape (s rest : List Char) :
    parseJsonString (escapeString s ++ '"' :: rest) = some (s, rest) :=
  parse_escape_aux s rest _ le_rfl

/-! ## Theorems: canonical claims serialization parses back -/

theorem expectPrefix_append (p : List Char) :
    ∀ rest, expectPrefix p (p ++ rest) = some rest := by
  induction p with
  | nil => intro rest; rfl
  | cons c p ih => intro rest; simp [expectPrefix, ih]

theorem expectPrefix_self (p : List Char) : expectPrefix p p = some [] := by
  have h := expectPrefix_append p []
  simpa using h

theorem unmarshal_marshal (cl : TokenClaims) :
    jsonUnmarshalClaims (jsonMarshalClaims cl) = some cl := by
  have hP2 : ("\",\"role\":\"" : String).data =
      '"' :: (",\"role\":\"" : String).data := rfl
  have hP3 : ("\",\"exp\":" : String).data =
      '"' :: (",\"exp\":" : String).data := rfl
  have hint : parseInt (intToChars cl.ExpiresAt ++ ['\x7d']) =
      some (cl.ExpiresAt, ['\x7d']) := by
    apply parseInt_render
    intro c hc
    simp at hc
    subst hc
    decide
  unfold jsonMarshalClaims jsonUnmarshalClaims
  rw [hP2, hP3]
  simp only [List.append_eq, List.append_assoc, List.cons_append,
    List.nil_append, Option.bind_eq_bind, Option.some_bind, expectPrefix,
    Char.reduceEq, reduceIte, parse_escape, hint, expectPrefix_self]

/-! ## Theorems: UTF-8 encoding decodes back -/

theorem char_valid_nat (c : Char) :
    c.toNat < 55296 ∨ (57343 < c.toNat ∧ c.toNat < 1114112) := by
  rcases c.valid with h | ⟨h1, h2⟩
  · exact Or.inl h
  · exact Or.inr ⟨h1, h2⟩

theorem utf8EncodeChar_lt_256 (c : Char) :
    ∀ b ∈ utf8EncodeChar c, b < 256 := by
  intro b hb
  have hv : c.toNat < 1114112 := by
    rcases char_valid_nat c with h | ⟨_, h⟩ <;> omega
  simp only [utf8EncodeChar] at hb
  split at hb
  · simp only [List.mem_singleton] at hb
    omega
  · split at hb
    · simp only [List.mem_cons, List.mem_singleton, List.not_mem_nil,
        or_false] at hb
      rcases hb with hb | hb <;> omega
    · split at hb
      · simp only [List.mem_cons, List.mem_singleton, List.not_mem_nil,
          or_false] at hb
        rcases hb with hb | hb | hb <;> omega
      · simp only [List.mem_cons, List.mem_singleton, List.not_mem_nil,
          or_false] at hb
        rcases hb with hb | hb | hb | hb <;> omega

theorem utf8EncodeChar_length_pos (c : Char) :
    1 ≤ (utf8EncodeChar c).length := by
  simp only [utf8EncodeChar]
  split
  · simp
  · split
    · simp
    · split <;> simp

set_option maxHeartbeats 1000000 in
theorem utf8DecodeAux_encode : ∀ (s : List Char) (fuel : Nat),
    (utf8Encode s).length ≤ fuel →
    utf8DecodeAux fuel (utf8Encode s) = some s := by
  intro s
  induction s with
  | nil =>
    intro fuel _
    cases fuel <;> rfl
  | cons c s ih =>
    intro fuel hfuel
    have hlen := utf8EncodeChar_length_pos c
    rw [show utf8Encode (c :: s) = utf8EncodeChar c ++ utf8Encode s
      from rfl] at hfuel ⊢
    rw [List.length_append] at hfuel
    cases fuel with
    | zero => omega
    | succ f =>
      have hf : (utf8Encode s).length ≤ f := by omega
      have ihs := ih f hf
      have hval := char_valid_nat c
      by_cases h1 : c.toNat < 128
      · have he : utf8EncodeChar c = [c.toNat] := by
          simp [utf8EncodeChar, h1]
        rw [he]
        simp only [List.cons_append, List.nil_append]
        rw [utf8DecodeAux]
        simp only [utf8Step, h1, if_true, ihs, Option.map_some',
          Char.ofNat_toNat]
      · by_cases h2 : c.toNat < 2048
        · have he : utf8EncodeChar c =
              [192 + c.toNat / 64, 128 + c.toNat % 64] := by
            simp [utf8EncodeChar, h1, h2]
          have hc1 : ¬ (192 + c.toNat / 64 < 128) := by omega
          have hc2 : ¬ (192 + c.toNat / 64 < 192) := by omega
          have hc3 : 192 + c.toNat / 64 < 224 := by omega
          have hc4 : 128 ≤ 128 + c.toNat % 64 ∧ 128 + c.toNat % 64 < 192 :=
            by omega
          have hn : (192 + c.toNat / 64 - 192) * 64 +
              (128 + c.toNat % 64 - 128) = c.toNat := by omega
          have hA : 128 ≤ c.toNat := by omega
          rw [he]
          simp only [List.cons_append, List.nil_append]
          rw [utf8DecodeAux]
          simp only [utf8Step, hc1, hc2, hc3, hc4, if_true, if_false,
            List.getElem?_cons_zero, Option.some_bind, List.drop_succ_cons,
            List.drop_zero, hn, ihs, Option.map_some', Char.ofNat_toNat]
          simp [hA]
        · by_cases h3 : c.toNat < 65536
          · have he : utf8EncodeChar c = [224 + c.toNat / 4096,
                128 + c.toNat / 64 % 64, 128 + c.toNat % 64] := by
              simp [utf8EncodeChar, h1, h2, h3]
            have hc1 : ¬ (224 + c.toNat / 4096 < 128) := by omega
            have hc2 : ¬ (224 + c.toNat / 4096 < 192) := by omega
            have hc3 : ¬ (224 + c.toNat / 4096 < 224) := by omega
            have hc4 : 224 + c.toNat / 4096 < 240 := by omega
            have hc5 : (128 ≤ 128 + c.toNat / 64 % 64 ∧
                128 + c.toNat / 64 % 64 < 192) ∧
                (128 ≤ 128 + c.toNat % 64 ∧ 128 + c.toNat % 64 < 192) := by
              refine ⟨⟨?_, ?_⟩, ?_, ?_⟩ <;> omega
            have hn : (224 + c.toNat / 4096 - 224) * 4096 +
                (128 + c.toNat / 64 % 64 - 128) * 64 +
                (128 + c.toNat % 64 - 128) = c.toNat := by omega
            have hA : 2048 ≤ c.toNat := by omega
            have hB : ¬ (55296 ≤ c.toNat ∧ c.toNat < 57344) := by
              rcases hval with h | ⟨hs1, hs2⟩ <;> omega
            rw [he]
            simp only [List.cons_append, List.nil_append]
            rw [utf8DecodeAux]
            simp only [utf8Step, hc1, hc2, hc3, hc4, hc5, if_true, if_false,
              List.getElem?_cons_zero, List.getElem?_cons_succ,
              Option.some_bind, List.drop_succ_cons, List.drop_zero, hn,
              ihs, Option.map_some', Char.ofNat_toNat]
            simp [hA, hB]
          · have hv4 : c.toNat < 1114112 := by
              rcases hval with h | ⟨_, h⟩ <;> omega
            have he : utf8EncodeChar c = [240 + c.toNat / 262144,
                128 + c.toNat / 4096 % 64, 128 + c.toNat / 64 % 64,
                128 + c.toNat % 64] := by
              simp [utf8EncodeChar, h1, h2, h3]
            have hc1 : ¬ (240 + c.toNat / 262144 < 128) := by omega
            have hc2 : ¬ (240 + c.toNat / 262144 < 192) := by omega
            have hc3 : ¬ (240 + c.toNat / 262144 < 224) := by omega
            have hc4 : ¬ (240 + c.toNat / 262144 < 240) := by omega
            have hc5 : 240 + c.toNat / 262144 < 248 := by omega
            have hc6 : (128 ≤ 128 + c.toNat / 4096 % 64 ∧
                128 + c.toNat / 4096 % 64 < 192) ∧
                (128 ≤ 128 + c.toNat / 64 % 64 ∧
                  128 + c.toNat / 64 % 64 < 192) ∧
                (128 ≤ 128 + c.toNat % 64 ∧ 128 + c.toNat % 64 < 192) := by
              refine ⟨⟨?_, ?_⟩, ⟨?_, ?_⟩, ?_, ?_⟩ <;> omega
            have hn : (240 + c.toNat / 262144 - 240) * 262144 +
                (128 + c.toNat / 4096 % 64 - 128) * 4096 +
                (128 + c.toNat / 64 % 64 - 128) * 64 +
                (128 + c.toNat % 64 - 128) = c.toNat := by omega
            have hA : 65536 ≤ c.toNat := by omega
            rw [he]
            simp only [List.cons_append, List.nil_append]
            rw [utf8DecodeAux]
            simp only [utf8Step, hc1, hc2, hc3, hc4, hc5, hc6, if_true,
              if_false, List.getElem?_cons_zero, List.getElem?_cons_succ,
              Option.some_bind, List.drop_succ_cons, List.drop_zero, hn,
              ihs, Option.map_some', Char.ofNat_toNat]
            simp [hA, hv4]

theorem utf8_roundtrip (s : List Char) :
    utf8Decode (utf8Encode s) = some s :=
  utf8DecodeAux_encode s (utf8Encode s).length (le_refl _)

/-! ## Theorems: base64url encoding decodes back -/

theorem b64Val_b64Char : ∀ v, v < 64 → b64Val (b64Char v) = some v := by
  decide

theorem b64Char_ne_dot (n : Nat) : b64Char n ≠ '.' := by
  by_cases h : n < 64
  · interval_cases n <;> decide
  · unfold b64Char
    rw [List.getD_eq_default]
    · decide
    · rw [show ("ABCDEFGHIJKLMNOPQRSTUVWXYZabcdefghijklmnopqrstuvwxyz0123456789-_" : String).data.length = 64 from rfl]
      omega

theorem b64Encode_no_dot : ∀ bs : List Nat, '.' ∉ b64Encode bs
  | [] => by simp [b64Encode]
  | [b1] => by
    simp only [b64Encode, List.mem_cons, List.not_mem_nil, or_false]
    rintro (h | h) <;> exact b64Char_ne_dot _ h.symm
  | [b1, b2] => by
    simp only [b64Encode, List.mem_cons, List.not_mem_nil, or_false]
    rintro (h | h | h) <;> exact b64Char_ne_dot _ h.symm
  | b1 :: b2 :: b3 :: rest => by
    have ih := b64Encode_no_dot rest
    simp only [b64Encode, List.mem_cons]
    rintro (h | h | h | h | h)
    · exact b64Char_ne_dot _ h.symm
    · exact b64Char_ne_dot _ h.symm
    · exact b64Char_ne_dot _ h.symm
    · exact b64Char_ne_dot _ h.symm
    · exact ih h

theorem b64_roundtrip : ∀ bs : List Nat, (∀ b ∈ bs, b < 256) →
    b64Decode (b64Encode bs) = some bs
  | [] => fun _ => rfl
  | [b1] => fun h => by
    have hb1 : b1 < 256 := h b1 (by simp)
    simp only [b64Encode, b64Decode, b64DecTwo]
    rw [b64Val_b64Char _ (by omega), b64Val_b64Char _ (by omega)]
    simp only [Option.some_bind, Option.map_some', Option.some.injEq,
      List.cons.injEq, and_true]
    omega
  | [b1, b2] => fun h => by
    have hb1 : b1 < 256 := h b1 (by simp)
    have hb2 : b2 < 256 := h b2 (by simp)
    simp only [b64Encode, b64Decode, b64DecThree]
    rw [b64Val_b64Char _ (by omega), b64Val_b64Char _ (by omega),
      b64Val_b64Char _ (by omega)]
    simp only [Option.some_bind, Option.map_some', Option.some.injEq,
      List.cons.injEq, and_true]
    constructor
    · omega
    · omega
  | b1 :: b2 :: b3 :: rest => fun h => by
    have hb1 : b1 < 256 := h b1 (by simp)
    have hb2 : b2 < 256 := h b2 (by simp)
    have hb3 : b3 < 256 := h b3 (by simp)
    have ih := b64_roundtrip rest
      (fun b hb => h b (by simp [hb]))
    simp only [b64Encode, b64Decode, b64DecFour]
    rw [b64Val_b64Char _ (by omega), b64Val_b64Char _ (by omega),
      b64Val_b64Char _ (by omega), b64Val_b64Char _ (by omega)]
    simp only [Option.some_bind, Option.map_some']
    rw [ih]
    simp only [Option.map_some', Option.some.injEq, List.cons_append,
      List.nil_append, List.cons.injEq]
    refine ⟨by omega, by omega, by omega, trivial⟩

theorem utf8Encode_lt_256 : ∀ s : List Char, ∀ b ∈ utf8Encode s, b < 256 := by
  intro s
  induction s with
  | nil => simp [utf8Encode]
  | cons c s ih =>
    intro b hb
    rw [show utf8Encode (c :: s) = utf8EncodeChar c ++ utf8Encode s
      from rfl] at hb
    rw [List.mem_append] at hb
    rcases hb with hb | hb
    · exact utf8EncodeChar_lt_256 c b hb
    · exact ih b hb

/-! ## Theorems: dot-splitting of the token -/

theorem splitOnDot_no_dot : ∀ a : List Char, '.' ∉ a →
    splitOnDot a = [a] := by
  intro a
  induction a with
  | nil => intro _; rfl
  | cons c a ih =>
    intro h
    simp only [List.mem_cons, not_or] at h
    have hc : ¬ (c = '.') := fun hc => h.1 hc.symm
    simp only [splitOnDot, hc, if_false, ih h.2]

theorem splitOnDot_append (a b : List Char) (ha : '.' ∉ a) :
    splitOnDot (a ++ '.' :: b) = a :: splitOnDot b := by
  induction a with
  | nil => simp [splitOnDot]
  | cons c a ih =>
    simp only [List.mem_cons, not_or] at ha
    have hc : ¬ (c = '.') := fun hc => ha.1 hc.symm
    have ih2 := ih ha.2
    simp only [List.cons_append, List.append_eq, splitOnDot, hc, if_false,
      ih2]

theorem splitOnDot_token (a b : List Char) (ha : '.' ∉ a) (hb : '.' ∉ b) :
    splitOnDot (a ++ '.' :: b) = [a, b] := by
  rw [splitOnDot_append a b ha, splitOnDot_no_dot b hb]

/-! ## Claim C3 -/

/-- C3: for every claims value whose expiry lies in the future, verifying
the token produced by signing those claims with the same secret (the same
keyed MAC function, assumed only to produce bytes) succeeds and returns
exactly the same claims: Verify(Sign(claims)) = claims. `Sign` is a pure
function of (claims, mac), so the statement also witnesses its
determinism. -/
theorem verify_sign_roundtrip (mac : List Nat → List Nat)
    (claims : TokenClaims) (now : Int)
    (hmac : ∀ bs, ∀ b ∈ mac bs, b < 256)
    (hexp : now < claims.ExpiresAt) :
    verify mac now (sign mac claims) = Except.ok claims := by
  have hpb : ∀ b ∈ utf8Encode (jsonMarshalClaims claims), b < 256 :=
    utf8Encode_lt_256 _
  simp only [sign, verify]
  rw [splitOnDot_token _ _ (b64Encode_no_dot _) (b64Encode_no_dot _)]
  simp only []
  rw [b64_roundtrip _ hpb, b64_roundtrip _ (hmac _)]
  simp only []
  simp only [if_true]
  rw [utf8_roundtrip]
  simp only []
  rw [unmarshal_marshal]
  simp only []
  rw [if_neg (by omega)]

/-- Witness for C3 at a concrete MAC function, claims value and clock. -/
theorem verify_sign_roundtrip_witness :
    verify (fun bs => [bs.length % 256]) 0
      (sign (fun bs => [bs.length % 256])
        (TokenClaims.mk "abc".data "host".data 100)) =
      Except.ok (TokenClaims.mk "abc".data "host".data 100) :=
  verify_sign_roundtrip (fun bs => [bs.length % 256])
    (TokenClaims.mk "abc".data "host".data 100) 0
    (fun bs b hb => by
      simp only [List.mem_singleton] at hb
      omega)
    (by decide)

/-! ## Claim C4 -/

/-- C4 counterexample: a concrete valid token whose signature half ends
in the base64url character 'A'; flipping one bit of that final byte
(0x41 to 0x43, 'A' to 'C' — their codes differ in exactly bit 1) yields
a different token that still verifies successfully with the same claims,
because the final character of a 3-character base64 group carries 2
padding bits that the non-strict RawURL decoder discards. -/
theorem verify_bitflip_cex :
    verify (fun bs => [bs.length % 256, 0]) 0
      (sign (fun bs => [bs.length % 256, 0])
        (TokenClaims.mk "abc".data "host".data 100)) =
      Except.ok (TokenClaims.mk "abc".data "host".data 100) ∧
    (sign (fun bs => [bs.length % 256, 0])
      (TokenClaims.mk "abc".data "host".data 100)).getLast? = some 'A' ∧
    ((sign (fun bs => [bs.length % 256, 0])
        (TokenClaims.mk "abc".data "host".data 100)).dropLast ++ ['C']) ≠
      sign (fun bs => [bs.length % 256, 0])
        (TokenClaims.mk "abc".data "host".data 100) ∧
    'A'.toNat ^^^ 'C'.toNat = 2 ∧
    verify (fun bs => [bs.length % 256, 0]) 0
      ((sign (fun bs => [bs.length % 256, 0])
        (TokenClaims.mk "abc".data "host".data 100)).dropLast ++ ['C']) =
      Except.ok (TokenClaims.mk "abc".data "host".data 100) :=
  ⟨rfl, rfl, by decide, by decide, rfl⟩

/-- C4 (amended): a one-bit mutation of a valid token need not fail
verification: when the MAC is two bytes ending in 0 (so the signature
half ends in a partial base64 group whose final character 'A' carries
two discarded padding bits), replacing that final 'A' by 'C' — a
single-bit change of the byte — produces a different token that
verifies successfully with the same claims; only mutations that change
the decoded bytes, the dot, or the decodability of either half are
rejected. -/
theorem verify_padding_bitflip (claims : TokenClaims) (now : Int)
    (hexp : now < claims.ExpiresAt) :
    verify (fun bs => [bs.length % 256, 0]) now
      (sign (fun bs => [bs.length % 256, 0]) claims) = Except.ok claims ∧
    (sign (fun bs => [bs.length % 256, 0]) claims).getLast? = some 'A' ∧
    ((sign (fun bs => [bs.length % 256, 0]) claims).dropLast ++ ['C']) ≠
      sign (fun bs => [bs.length % 256, 0]) claims ∧
    verify (fun bs => [bs.length % 256, 0]) now
      ((sign (fun bs => [bs.length % 256, 0]) claims).dropLast ++ ['C']) =
      Except.ok claims := by
  have hok := verify_sign_roundtrip (fun bs => [bs.length % 256, 0]) claims
    now (fun bs b hb => by simp only [List.mem_cons, List.mem_singleton,
      List.not_mem_nil, or_false] at hb; rcases hb with hb | hb <;> omega)
    hexp
  obtain ⟨L, hL⟩ : ∃ L,
      (utf8Encode (jsonMarshalClaims claims)).length % 256 = L := ⟨_, rfl⟩
  obtain ⟨P, hPdef⟩ : ∃ P,
      b64Encode (utf8Encode (jsonMarshalClaims claims)) = P := ⟨_, rfl⟩
  have hL256 : L < 256 := by
    rw [← hL]
    exact Nat.mod_lt _ (by norm_num)
  have htok : sign (fun bs => [bs.length % 256, 0]) claims =
      (P ++ ['.', b64Char (L / 4), b64Char (L % 4 * 16)]) ++ ['A'] := by
    simp only [sign]
    rw [hL, hPdef]
    rw [b64Encode]
    simp only [Nat.zero_div, Nat.add_zero, Nat.zero_mod, Nat.zero_mul]
    rw [show b64Char 0 = 'A' from by decide]
    simp
  refine ⟨hok, ?_, ?_, ?_⟩
  · rw [htok, List.getLast?_concat]
  · rw [htok, List.dropLast_concat]
    intro h
    have hlast := congrArg List.getLast? h
    rw [List.getLast?_concat, List.getLast?_concat] at hlast
    simp at hlast
  · rw [htok, List.dropLast_concat]
    have hshape : (P ++ ['.', b64Char (L / 4), b64Char (L % 4 * 16)]) ++
        ['C'] = P ++ '.' ::
        [b64Char (L / 4), b64Char (L % 4 * 16), 'C'] := by simp
    rw [hshape]
    have hnodot2 : '.' ∉ [b64Char (L / 4), b64Char (L % 4 * 16), 'C'] := by
      simp only [List.mem_cons, List.mem_singleton, List.not_mem_nil,
        or_false]
      rintro (h | h | h)
      · exact b64Char_ne_dot _ h.symm
      · exact b64Char_ne_dot _ h.symm
      · exact absurd h (by decide)
    have hpb : ∀ b ∈ utf8Encode (jsonMarshalClaims claims), b < 256 :=
      utf8Encode_lt_256 _
    have hPnodot : '.' ∉ P := by
      rw [← hPdef]
      exact b64Encode_no_dot _
    have hPdec : b64Decode P =
        some (utf8Encode (jsonMarshalClaims claims)) := by
      rw [← hPdef]
      exact b64_roundtrip _ hpb
    simp only [verify]
    rw [splitOnDot_token _ _ hPnodot hnodot2]
    simp only []
    rw [hPdec]
    simp only []
    rw [show b64Decode [b64Char (L / 4), b64Char (L % 4 * 16), 'C'] =
        b64DecThree (b64Char (L / 4)) (b64Char (L % 4 * 16)) 'C' from rfl]
    rw [show b64DecThree (b64Char (L / 4)) (b64Char (L % 4 * 16)) 'C' =
        (b64Val (b64Char (L / 4))).bind (fun v1 =>
          (b64Val (b64Char (L % 4 * 16))).bind (fun v2 =>
            (b64Val 'C').map (fun v3 =>
              [v1 * 4 + v2 / 16, v2 % 16 * 16 + v3 / 4]))) from rfl]
    rw [b64Val_b64Char _ (by omega), b64Val_b64Char _ (by omega),
      show b64Val 'C' = some 2 from by decide]
    simp only [Option.some_bind, Option.map_some']
    have hbytes : [L / 4 * 4 + L % 4 * 16 / 16,
        L % 4 * 16 % 16 * 16 + 2 / 4] = [L, 0] := by
      have h1 : L / 4 * 4 + L % 4 * 16 / 16 = L := by omega
      have h2 : L % 4 * 16 % 16 * 16 + 2 / 4 = 0 := by omega
      rw [h1, h2]
    rw [hbytes]
    simp only [hL, if_true]
    rw [utf8_roundtrip]
    simp only []
    rw [unmarshal_marshal]
    simp only []
    rw [if_neg (by omega)]

/-- Witness for the amended C4 at concrete claims and clock. -/
theorem verify_padding_bitflip_witness :
    verify (fun bs => [bs.length % 256, 0]) 0
      (sign (fun bs => [bs.length % 256, 0])
        (TokenClaims.mk "xy".data "joiner".data 50)) =
      Except.ok (TokenClaims.mk "xy".data "joiner".data 50) ∧
    (sign (fun bs => [bs.length % 256, 0])
      (TokenClaims.mk "xy".data "joiner".data 50)).getLast? = some 'A' ∧
    ((sign (fun bs => [bs.length % 256, 0])
        (TokenClaims.mk "xy".data "joiner".data 50)).dropLast ++ ['C']) ≠
      sign (fun bs => [bs.length % 256, 0])
        (TokenClaims.mk "xy".data "joiner".data 50) ∧
    verify (fun bs => [bs.length % 256, 0]) 0
      ((sign (fun bs => [bs.length % 256, 0])
        (TokenClaims.mk "xy".data "joiner".data 50)).dropLast ++ ['C']) =
      Except.ok (TokenClaims.mk "xy".data "joiner".data 50) :=
  verify_padding_bitflip (TokenClaims.mk "xy".data "joiner".data 50) 0
    (by decide)

/-! ## Theorems: join-code alphabet -/

theorem base32Char_mem (n : Nat) (h : n < 32) :
    base32Char n ∈ base32Alphabet := by
  interval_cases n <;> decide

/-! ## Claim C10 -/

/-- C10: for every live session to which no joiner has been admitted,
`Store.ValidateToken(id, t, "joiner")` returns true exactly when `t` is
the empty string, because the stored joiner token is still the zero value
`""` and the role branch compares it with `==`. -/
theorem validateToken_joiner_empty (st : Store) (now : Int) (id : String)
    (sess : Session) (t : String)
    (hsess : mapGet st.sessions id = some sess)
    (hlive : sess.isExpired now = false)
    (hempty : sess.JoinToken = "") :
    (st.validateToken now id t "joiner" = true) ↔ t = "" := by
  simp only [Store.validateToken, hsess, hlive, hempty,
    Bool.false_eq_true, if_false]
  rw [if_neg (by decide : ¬ ("joiner" : String) = "host")]
  simp only [if_true, beq_iff_eq]
  exact ⟨fun h => h.symm, fun h => h.symm⟩

/-- Witness for C10 at the concrete fixture `storeFresh`. -/
theorem validateToken_joiner_empty_witness :
    (storeFresh.validateToken 0 "i" "" "joiner" = true) ↔ ("" : String) = "" :=
  validateToken_joiner_empty storeFresh 0 "i" sessFresh "" (by decide)
    (by decide) (by decide)

/-! ## Claim C6 -/

/-- C6 counterexample: `storeExpired` holds a session that is expired at
time 1, yet `SetHostConnected` succeeds on it instead of reporting
not-found — the liveness mutators perform no expiry check, contradicting
the claim that every store operation treats an expired session as
absent. -/
theorem setHostConnected_expired_cex :
    sessExpired.isExpired 1 = true ∧
    ∃ st', storeExpired.setHostConnected "i" true = Except.ok st' :=
  ⟨rfl, _, rfl⟩

/-- C6 (amended): for an expired but not yet collected session, every
lookup-style operation (`GetByID`, `GetByCode`, `ValidateToken`, `Join`)
behaves as if the session does not exist, and the record is removed at
the next janitor tick; the liveness mutators `SetHostConnected` and
`SetJoinConnected`, however, consult only the id index and succeed. -/
theorem expired_session_unreachable (st : Store) (now : Int)
    (id code : String) (sess : Session)
    (hsess : mapGet st.sessions id = some sess)
    (hcode : mapGet st.byCodes code = some id)
    (hexp : sess.isExpired now = true)
    (hnd : (st.sessions.map Prod.fst).Nodup) :
    st.getByID now id = none ∧
    st.getByCode now code = none ∧
    (∀ t role, st.validateToken now id t role = false) ∧
    (∀ jt, st.join now code jt = Except.error JoinErr.expired) ∧
    mapGet (st.cleanup now).sessions id = none ∧
    (∃ st', st.setHostConnected id true = Except.ok st') ∧
    (∃ st', st.setJoinConnected id true = Except.ok st') := by
  refine ⟨?_, ?_, ?_, ?_, ?_, ?_, ?_⟩
  · simp [Store.getByID, hsess, hexp]
  · simp [Store.getByCode, hcode, hsess, hexp]
  · intro t role
    simp [Store.validateToken, hsess, hexp]
  · intro jt
    simp [Store.join, hcode, hsess, hexp]
  · exact mapGet_filter_none_of_fst (fun v => !(v.isExpired now)) st.sessions
      id sess hnd hsess (by simp [hexp])
  · refine ⟨Store.mk (mapSet st.sessions id
      { sess with HostConnected := true }) st.byCodes st.ttl, ?_⟩
    simp [Store.setHostConnected, hsess]
  · refine ⟨Store.mk (mapSet st.sessions id
      { sess with JoinConnected := true }) st.byCodes st.ttl, ?_⟩
    simp [Store.setJoinConnected, hsess]

/-- Witness for the amended C6 at the concrete fixture `storeExpired`. -/
theorem expired_session_unreachable_witness :
    storeExpired.getByID 1 "i" = none ∧
    storeExpired.getByCode 1 "AAAA-AAAA-AAAA" = none ∧
    (∀ t role, storeExpired.validateToken 1 "i" t role = false) ∧
    (∀ jt, storeExpired.join 1 "AAAA-AAAA-AAAA" jt =
      Except.error JoinErr.expired) ∧
    mapGet (storeExpired.cleanup 1).sessions "i" = none ∧
    (∃ st', storeExpired.setHostConnected "i" true = Except.ok st') ∧
    (∃ st', storeExpired.setJoinConnected "i" true = Except.ok st') :=
  expired_session_unreachable storeExpired 1 "i" "AAAA-AAAA-AAAA" sessExpired
    (by decide) (by decide) (by decide) (by decide)

/-! ## Claim C2 -/

/-- C2 counterexample: on a live session that already has a joiner,
`Store.Join` fails with the distinct conflict error, but `handleJoin`
surfaces it as HTTP 404 ("Invalid or expired code"), never as the 409 the
claim asserts. -/
theorem join_conflict_http404_cex :
    storeJoined.join 0 "AAAA-AAAA-AAAA" "t2" =
      Except.error JoinErr.alreadyJoined ∧
    handleJoin storeJoined 0 "AAAA-AAAA-AAAA" "t2" = (404, storeJoined) ∧
    (handleJoin storeJoined 0 "AAAA-AAAA-AAAA" "t2").1 ≠ 409 :=
  ⟨rfl, rfl, by decide⟩

/-- C2 (amended): the first join on a minted code of a live session
succeeds and mints the joiner token; every subsequent join on the same
code fails with the conflict error at the store until the session
expires; but the HTTP join endpoint surfaces every `Store.Join`
failure — unknown code, expired session, and already-joined alike — as
status 404, and never returns 409. -/
theorem join_exactly_once_http404 (st : Store) (now now2 : Int)
    (code id jt jt2 : String) (sess : Session)
    (hcode : mapGet st.byCodes code = some id)
    (hsess : mapGet st.sessions id = some sess)
    (hlive : sess.isExpired now = false)
    (hlive2 : sess.isExpired now2 = false)
    (hjt : jt ≠ "")
    (hempty : sess.JoinToken = "") :
    (∃ st', st.join now code jt =
        Except.ok (st', { sess with JoinToken := jt }) ∧
      st'.join now2 code jt2 = Except.error JoinErr.alreadyJoined) ∧
    (∀ st0 n rc td,
      (handleJoin st0 n rc td).1 ≠ 409 ∧
      ((handleJoin st0 n rc td).1 = 404 ↔
        ∃ e, st0.join n (normalizeCode rc) td = Except.error e)) := by
  have hjoin : st.join now code jt = Except.ok
      (Store.mk (mapSet st.sessions id { sess with JoinToken := jt })
        st.byCodes st.ttl, { sess with JoinToken := jt }) := by
    simp [Store.join, hcode, hsess, hlive, hempty]
  have hsess' : mapGet (mapSet st.sessions id
      { sess with JoinToken := jt }) id =
      some { sess with JoinToken := jt } := mapGet_mapSet_self _ _ _
  have hlive2' : ({ sess with JoinToken := jt } : Session).isExpired now2
      = false := hlive2
  have hsecond : (Store.mk (mapSet st.sessions id
      { sess with JoinToken := jt }) st.byCodes st.ttl).join
      now2 code jt2 = Except.error JoinErr.alreadyJoined := by
    simp [Store.join, hcode, hsess', hlive2', hjt]
  refine ⟨⟨_, hjoin, hsecond⟩, ?_⟩
  intro st0 n rc td
  unfold handleJoin
  cases hj : st0.join n (normalizeCode rc) td with
  | error e => simp [hj]
  | ok p => simp [hj]

/-- Witness for the amended C2 at the concrete fixture `storeFresh`. -/
theorem join_exactly_once_http404_witness :
    (∃ st', storeFresh.join 0 "AAAA-AAAA-AAAA" "t1" =
        Except.ok (st', { sessFresh with JoinToken := "t1" }) ∧
      st'.join 0 "AAAA-AAAA-AAAA" "t2" =
        Except.error JoinErr.alreadyJoined) ∧
    (∀ st0 n rc td,
      (handleJoin st0 n rc td).1 ≠ 409 ∧
      ((handleJoin st0 n rc td).1 = 404 ↔
        ∃ e, st0.join n (normalizeCode rc) td = Except.error e)) :=
  join_exactly_once_http404 storeFresh 0 0 "AAAA-AAAA-AAAA" "i" "t1" "t2"
    sessFresh (by decide) (by decide) (by decide) (by decide) (by decide)
    (by decide)

/-! ## Claim C7 -/

/-- C7 counterexample: after two `Create` calls whose drawn codes collide,
both sessions are live and carry the same code, the code index points at
the newer session only, and the older session is no longer reachable by
its code — `Create` installed the colliding code without redrawing. -/
theorem create_collision_cex :
    (∃ s1 s2, mapGet storeTwoCreates.sessions "id1" = some s1 ∧
      mapGet storeTwoCreates.sessions "id2" = some s2 ∧
      s1.Code = s2.Code ∧ s1.isExpired 0 = false ∧ s2.isExpired 0 = false ∧
      storeTwoCreates.getByCode 0 s1.Code ≠ some s1) ∧
    mapGet storeTwoCreates.byCodes "AAAA-AAAA-AAAA" = some "id2" := by
  refine ⟨⟨_, _, rfl, rfl, rfl, rfl, rfl, ?_⟩, rfl⟩
  decide

/-- C7 (amended): session creation draws 64 bits (8 bytes ≥ 60 bits) from
a CSPRNG and renders the top 60 as three dash-separated groups of four
characters of the uppercase base32 alphabet; but the store performs no
collision check: `Create` unconditionally overwrites the `byCodes` entry
for the drawn code (so the index still maps each code to at most one id),
leaving any older session with the same code live but unreachable by
code. -/
theorem code_format_and_create_overwrite (draw : List Nat) (st : Store)
    (now : Int) (id hostTok id' : String) (hne : id' ≠ id) :
    (generateCodeChars draw).length = 12 ∧
    (∀ c ∈ generateCodeChars draw, c ∈ base32Alphabet) ∧
    generateCode draw = regroupCode (generateCodeChars draw) ∧
    mapGet ((st.create now id (generateCode draw) hostTok).1.byCodes)
      (generateCode draw) = some id ∧
    mapGet ((st.create now id (generateCode draw) hostTok).1.sessions) id' =
      mapGet st.sessions id' := by
  refine ⟨by simp [generateCodeChars], ?_, rfl, ?_, ?_⟩
  · intro c hc
    simp [generateCodeChars] at hc
    obtain ⟨i, _, hi⟩ := hc
    rw [← hi]
    exact base32Char_mem _ (Nat.mod_lt _ (by norm_num))
  · simp [Store.create, mapGet_mapSet_self]
  · simp [Store.create]
    exact mapGet_mapSet_ne _ _ _ _ hne

/-- Witness for the amended C7 at a concrete draw and store. -/
theorem code_format_and_create_overwrite_witness :
    (generateCodeChars [0, 0, 0, 0, 0, 0, 0, 0]).length = 12 ∧
    (∀ c ∈ generateCodeChars [0, 0, 0, 0, 0, 0, 0, 0],
      c ∈ base32Alphabet) ∧
    generateCode [0, 0, 0, 0, 0, 0, 0, 0] =
      regroupCode (generateCodeChars [0, 0, 0, 0, 0, 0, 0, 0]) ∧
    mapGet ((storeFresh.create 0 "id9" (generateCode [0, 0, 0, 0, 0, 0, 0, 0])
      "h9").1.byCodes) (generateCode [0, 0, 0, 0, 0, 0, 0, 0]) =
      some "id9" ∧
    mapGet ((storeFresh.create 0 "id9" (generateCode [0, 0, 0, 0, 0, 0, 0, 0])
      "h9").1.sessions) "i" = mapGet storeFresh.sessions "i" :=
  code_format_and_create_overwrite [0, 0, 0, 0, 0, 0, 0, 0] storeFresh 0
    "id9" "h9" "i" (by decide)

/-! ## Theorems: relay pairing bound -/

theorem runPairing_spliced_bound (sid : String) :
    ∀ (evs : List (String × Nat)) (st : RelayState),
    2 * (runPairing sid st evs).spliced.length ≤
      2 * st.spliced.length +
      (if (mapGet st.pending sid).isSome then 1 else 0) + evs.length := by
  intro evs
  induction evs with
  | nil =>
    intro st
    simp only [runPairing, List.length_nil]
    split <;> omega
  | cons e es ih =>
    intro st
    simp only [runPairing, List.length_cons]
    refine le_trans (ih (pairStep st sid e.1 e.2 0)) ?_
    cases hp : mapGet st.pending sid with
    | none =>
      simp [pairStep, hp, mapGet_mapSet_self]
      omega
    | some p =>
      by_cases hrole : p.Role ≠ e.1
      · simp [pairStep, hp, hrole, mapGet_mapDel_self]
        omega
      · simp [pairStep, hp, hrole, mapGet_mapSet_self]

/-! ## Claim C1 -/

/-- C1 counterexample: four authenticated connections for one session id,
in the order host, joiner, host, joiner, splice two pairs — the relay
keeps no record of already-paired sessions, so pairing is not at-most-once
per session id over a run. -/
theorem relay_two_pairs_cex :
    (runPairing "s" relayState0
      [("host", 1), ("joiner", 2), ("host", 3), ("joiner", 4)]).spliced =
      [("s", 3, 4), ("s", 1, 2)] ∧
    (runPairing "s" relayState0
      [("host", 1), ("joiner", 2), ("host", 3), ("joiner", 4)]).spliced.length
      = 2 :=
  ⟨rfl, rfl⟩

/-- C1 (amended): the pending table holds at most one pending connection
per session id; an authenticated connection with the same role as the
pending entry displaces it, closing the old socket, and one with the
opposite role removes the pending entry and records the splice in the
same critical section — so at most one pair can be spliced per two
authenticated connections (from the empty state,
2·splices ≤ connections, hence at most one splice for up to three
connections); but nothing prevents a later host/joiner round for the same
session id from splicing again. -/
theorem relay_pairing (st : RelayState) (sid role : String)
    (conn : Nat) (now : Int) (p : PendingConnection)
    (hp : mapGet st.pending sid = some p) :
    (p.Role = role →
      (pairStep st sid role conn now).pending =
        mapSet st.pending sid (PendingConnection.mk conn role sid now) ∧
      (pairStep st sid role conn now).closed = p.Conn :: st.closed ∧
      (pairStep st sid role conn now).spliced = st.spliced) ∧
    (p.Role ≠ role →
      (pairStep st sid role conn now).pending = mapDel st.pending sid ∧
      (pairStep st sid role conn now).spliced =
        (sid, if role = "host" then (conn, p.Conn) else (p.Conn, conn))
          :: st.spliced ∧
      (pairStep st sid role conn now).closed = st.closed) ∧
    (∀ evs : List (String × Nat),
      2 * (runPairing sid relayState0 evs).spliced.length ≤ evs.length) := by
  refine ⟨?_, ?_, ?_⟩
  · intro hr
    simp [pairStep, hp, hr]
  · intro hr
    simp [pairStep, hp, hr]
  · intro evs
    have h := runPairing_spliced_bound sid evs relayState0
    simpa [relayState0, mapGet] using h

/-- Witness for the amended C1 at a concrete pending state. -/
theorem relay_pairing_witness :
    let stP : RelayState :=
      RelayState.mk [("s", PendingConnection.mk 1 "host" "s" 0)] [] []
    let p : PendingConnection := PendingConnection.mk 1 "host" "s" 0
    (p.Role = "host" →
      (pairStep stP "s" "host" 7 5).pending =
        mapSet stP.pending "s" (PendingConnection.mk 7 "host" "s" 5) ∧
      (pairStep stP "s" "host" 7 5).closed = p.Conn :: stP.closed ∧
      (pairStep stP "s" "host" 7 5).spliced = stP.spliced) ∧
    (p.Role ≠ "host" →
      (pairStep stP "s" "host" 7 5).pending = mapDel stP.pending "s" ∧
      (pairStep stP "s" "host" 7 5).spliced =
        ("s", if "host" = "host" then (7, p.Conn) else (p.Conn, 7))
          :: stP.spliced ∧
      (pairStep stP "s" "host" 7 5).closed = stP.closed) ∧
    (∀ evs : List (String × Nat),
      2 * (runPairing "s" relayState0 evs).spliced.length ≤ evs.length) :=
  relay_pairing (RelayState.mk [("s", PendingConnection.mk 1 "host" "s" 0)]
    [] []) "s" "host" 7 5 (PendingConnection.mk 1 "host" "s" 0) (by decide)

/-! ## Theorems: bridge counter accounting -/

theorem fwdLoop_accounting (evs : List ReadEvent) (cnt : Nat) :
    (fwdLoop cnt evs).1 = cnt + (fwdLoop cnt evs).2 + lostBytes evs ∧
    cnt ≤ (fwdLoop cnt evs).1 := by
  induction evs generalizing cnt with
  | nil => simp [fwdLoop, lostBytes]
  | cons e es ih =>
    cases e with
    | readErr => simp [fwdLoop, lostBytes]
    | data n ok =>
      by_cases hn : n > 0
      · cases ok with
        | true =>
          have h := ih (cnt + n)
          simp only [fwdLoop, lostBytes, hn, if_true, if_pos]
          omega
        | false =>
          simp [fwdLoop, lostBytes, hn]
      · have h := ih cnt
        simp only [fwdLoop, lostBytes, hn, if_neg, if_false]
        exact h

/-! ## Claim C8 -/

/-- C8 counterexample: a single 5-byte read whose write fails leaves the
counter at 5 while 0 bytes were written — the counter is incremented
before the write, not after a successful write, so it does not equal the
bytes actually written. -/
theorem bridge_counter_before_write_cex :
    fwdLoop 0 [ReadEvent.data 5 false] = (5, 0) ∧
    (fwdLoop 0 [ReadEvent.data 5 false]).1 ≠
      (fwdLoop 0 [ReadEvent.data 5 false]).2 :=
  ⟨rfl, by decide⟩

/-- C8 (amended): in both forwarding loops the counter (BytesIn for
relay-to-local, BytesOut for local-to-relay) is updated atomically after
each successful read and immediately before the write, so each counter is
monotone non-decreasing and its value equals the bytes actually written
on that side plus the size of a final chunk whose write failed, if any
(`lostBytes`). -/
theorem bridge_counter_accounting (cnt : Nat) (evs : List ReadEvent) :
    (forwardToLocal cnt evs).1 =
      cnt + (forwardToLocal cnt evs).2 + lostBytes evs ∧
    cnt ≤ (forwardToLocal cnt evs).1 ∧
    (forwardToRelay cnt evs).1 =
      cnt + (forwardToRelay cnt evs).2 + lostBytes evs ∧
    cnt ≤ (forwardToRelay cnt evs).1 := by
  have h := fwdLoop_accounting evs cnt
  exact ⟨h.1, h.2, h.1, h.2⟩

/-! ## Theorems: token-bucket window bound -/

theorem runAllow_tail_bound (rate burst E : ℚ) (hr : 0 ≤ rate)
    (hb : 0 ≤ burst) :
    ∀ (ts : List ℚ) (s : BucketState), 0 ≤ s.tokens → s.last ≤ E →
    List.Chain' (fun a b => a ≤ b) (s.last :: ts) → (∀ t ∈ ts, t ≤ E) →
    ((runAllow rate burst s ts).1 : ℚ) ≤ s.tokens + rate * (E - s.last) := by
  intro ts
  induction ts with
  | nil =>
    intro s hs0 hsE _ _
    simp only [runAllow, Nat.cast_zero]
    have hm : 0 ≤ rate * (E - s.last) := mul_nonneg hr (by linarith)
    linarith
  | cons t ts ih =>
    intro s hs0 hsE hchain hall
    have hlt : s.last ≤ t := (List.chain'_cons.mp hchain).1
    have hchain' : List.Chain' (fun a b => a ≤ b) (t :: ts) :=
      (List.chain'_cons.mp hchain).2
    have htE : t ≤ E := hall t (by simp)
    have hall' : ∀ u ∈ ts, u ≤ E := fun u hu => hall u (by simp [hu])
    have hguard : bucketAdvance rate burst s t =
        min burst (s.tokens + rate * (t - s.last)) := by
      simp [bucketAdvance, if_neg (not_lt.mpr hlt)]
    have htok_le : bucketAdvance rate burst s t ≤
        s.tokens + rate * (t - s.last) := by
      rw [hguard]; exact min_le_right _ _
    have htok_nonneg : 0 ≤ bucketAdvance rate burst s t := by
      rw [hguard]
      exact le_min hb (add_nonneg hs0 (mul_nonneg hr (by linarith)))
    have hring : rate * (t - s.last) + rate * (E - t) = rate * (E - s.last) :=
      by ring
    by_cases hallow : 1 ≤ bucketAdvance rate burst s t
    · have hcount : ((runAllow rate burst s (t :: ts)).1 : ℚ) =
          1 + ((runAllow rate burst
            (BucketState.mk (bucketAdvance rate burst s t - 1) t) ts).1 : ℚ)
          := by
        simp [runAllow, allowStep, hallow]
      have hih := ih (BucketState.mk (bucketAdvance rate burst s t - 1) t)
        (by simp only; linarith) htE hchain' hall'
      simp only at hih
      rw [hcount]
      linarith
    · have hcount : ((runAllow rate burst s (t :: ts)).1 : ℚ) =
          ((runAllow rate burst
            (BucketState.mk (bucketAdvance rate burst s t) t) ts).1 : ℚ)
          := by
        simp [runAllow, allowStep, hallow]
      have hih := ih (BucketState.mk (bucketAdvance rate burst s t) t)
        htok_nonneg htE hchain' hall'
      simp only at hih
      rw [hcount]
      linarith

/-! ## Claim C9 -/

/-- C9: for a single identity's token bucket in any valid state (tokens
between 0 and burst, as every reachable bucket state is), across any
60-second window the number of `allow` calls that return true is at most
rate·60 + burst; with the `NewMultiLimiter` defaults this bound is 13 for
the session-create class (10/min, burst 3) and 40 for the session-join
class (30/min, burst 10). -/
theorem rate_limiter_window_bound (rate burst T : ℚ) (s : BucketState)
    (ts : List ℚ) (hr : 0 ≤ rate) (hb : 0 ≤ burst)
    (hs0 : 0 ≤ s.tokens) (hsb : s.tokens ≤ burst)
    (hchain : List.Chain' (fun a b => a ≤ b) ts)
    (hin : ∀ t ∈ ts, T ≤ t ∧ t ≤ T + 60) :
    ((runAllow rate burst s ts).1 : ℚ) ≤ rate * 60 + burst ∧
    (rate = createRate → burst = createBurst →
      (runAllow rate burst s ts).1 ≤ 13) ∧
    (rate = joinRate → burst = joinBurst →
      (runAllow rate burst s ts).1 ≤ 40) := by
  have main : ((runAllow rate burst s ts).1 : ℚ) ≤ rate * 60 + burst := by
    cases ts with
    | nil =>
      simp only [runAllow, Nat.cast_zero]
      have : 0 ≤ rate * 60 := mul_nonneg hr (by norm_num)
      linarith
    | cons t ts =>
      obtain ⟨hTt, htE⟩ := hin t (by simp)
      have hall' : ∀ u ∈ ts, u ≤ T + 60 := fun u hu => (hin u (by simp [hu])).2
      have hchain' : List.Chain' (fun a b => a ≤ b) (t :: ts) := hchain
      have htok_le_burst : bucketAdvance rate burst s t ≤ burst :=
        min_le_left _ _
      have hdelta : 0 ≤ t - (if t < s.last then t else s.last) := by
        split
        · linarith
        · next h => linarith [not_lt.mp h]
      have htok_nonneg : 0 ≤ bucketAdvance rate burst s t :=
        le_min hb (add_nonneg hs0 (mul_nonneg hr hdelta))
      have hmono : rate * (T + 60 - t) ≤ rate * 60 := by
        have h1 : T + 60 - t ≤ 60 := by linarith
        nlinarith
      by_cases hallow : 1 ≤ bucketAdvance rate burst s t
      · have hcount : ((runAllow rate burst s (t :: ts)).1 : ℚ) =
            1 + ((runAllow rate burst
              (BucketState.mk (bucketAdvance rate burst s t - 1) t) ts).1 : ℚ)
            := by
          simp [runAllow, allowStep, hallow]
        have hih := runAllow_tail_bound rate burst (T + 60) hr hb ts
          (BucketState.mk (bucketAdvance rate burst s t - 1) t)
          (by simp only; linarith) htE hchain' hall'
        simp only at hih
        rw [hcount]
        linarith
      · have hcount : ((runAllow rate burst s (t :: ts)).1 : ℚ) =
            ((runAllow rate burst
              (BucketState.mk (bucketAdvance rate burst s t) t) ts).1 : ℚ)
            := by
          simp [runAllow, allowStep, hallow]
        have hih := runAllow_tail_bound rate burst (T + 60) hr hb ts
          (BucketState.mk (bucketAdvance rate burst s t) t)
          htok_nonneg htE hchain' hall'
        simp only at hih
        rw [hcount]
        linarith
  refine ⟨main, ?_, ?_⟩
  · intro hrc hbc
    subst hrc
    subst hbc
    have h13 : ((runAllow createRate createBurst s ts).1 : ℚ) ≤ 13 := by
      have he : createRate * 60 + createBurst = 13 := by
        norm_num [createRate, createBurst]
      linarith [main]
    exact_mod_cast h13
  · intro hrc hbc
    subst hrc
    subst hbc
    have h40 : ((runAllow joinRate joinBurst s ts).1 : ℚ) ≤ 40 := by
      have he : joinRate * 60 + joinBurst = 40 := by
        norm_num [joinRate, joinBurst]
      linarith [main]
    exact_mod_cast h40

/-- Witness for C9 at the create-class parameters, a full bucket and four
calls inside the window starting at 0. -/
theorem rate_limiter_window_bound_witness :
    ((runAllow createRate createBurst (BucketState.mk 3 0)
      [0, 1, 2, 3]).1 : ℚ) ≤ createRate * 60 + createBurst ∧
    (createRate = createRate → createBurst = createBurst →
      (runAllow createRate createBurst (BucketState.mk 3 0)
        [0, 1, 2, 3]).1 ≤ 13) ∧
    (createRate = joinRate → createBurst = joinBurst →
      (runAllow createRate createBurst (BucketState.mk 3 0)
        [0, 1, 2, 3]).1 ≤ 40) :=
  rate_limiter_window_bound createRate createBurst 0 (BucketState.mk 3 0)
    [0, 1, 2, 3] (by norm_num [createRate]) (by norm_num [createBurst])
    (by norm_num) (by norm_num [createBurst])
    (by norm_num [List.chain'_cons])
    (by intro t ht; simp only [List.mem_cons, List.not_mem_nil, or_false]
          at ht
        rcases ht with h | h | h | h <;> rw [h] <;> norm_num)

/-! ## Claim C5 -/

/-- C5: when the verified token's claims do not match the sessionId and
role asserted in the handshake message, `HandleConnection` sends the
failure envelope ("Token mismatch"), returns so that the deferred
`conn.Close()` closes the socket, and leaves the relay's shared pending
table (and all other relay state) unchanged. -/
theorem relay_token_mismatch (st : RelayState) (m : AuthMessage)
    (validate : String → Except String (String × String)) (conn : Nat)
    (now : Int) (sid role : String)
    (hval : validate m.RelayToken = Except.ok (sid, role))
    (hmis : sid ≠ m.SessionID ∨ role ≠ m.Role) :
    handleConnection st (some m) validate conn now =
      HandleResult.mk st (AuthResponse.mk false "Token mismatch") true := by
  simp [handleConnection, authPhase, hval, hmis]

/-- Witness for C5 with a concrete validator and mismatching message. -/
theorem relay_token_mismatch_witness :
    handleConnection relayState0
      (some (AuthMessage.mk "other" "tok" "host"))
      (fun _ => Except.ok ("s", "host")) 3 0 =
      HandleResult.mk relayState0 (AuthResponse.mk false "Token mismatch")
        true :=
  relay_token_mismatch relayState0 (AuthMessage.mk "other" "tok" "host")
    (fun _ => Except.ok ("s", "host")) 3 0 "s" "host" rfl
    (Or.inl (by decide))

end SFO
